import Mathlib

/-!
Verification of the event-ensemble aggregation code of the
emulator-validation repository (src/calculations_average_obs.py, with
configuration constants from src/configurations.py).

Numeric modelling.  The Python code computes with IEEE doubles; we use two
complementary shallow embeddings:

* An exact layer over the rationals for the weighted-statistics function.
  Standard errors there are represented by their squares, which are
  rational: the code computes np.std(x)/np.sqrt(k) respectively
  np.sqrt(v/k), and both are the real square root of the rational value
  npVar x / k respectively v / k, so two calls agree exactly iff their
  squared representations agree.

* A partiality-aware layer in which a floating-point value is an
  Option Rat: some q is a finite value of exact magnitude q, and none
  stands for any result that is not an exact rational (NaN or an infinity
  from a division by zero, the square root of a negative number, and an
  irrational square root, which has no exact rational representation).
  Exceptions of the Python runtime are modelled with Except PyErr.  The
  theorems below never rely on the difference between the cases collapsed
  into none.
-/

namespace AvgObs

/- --------------------------------------------------------------------
Exact layer: weighted_mean_std, src/calculations_average_obs.py lines
111-120.  The second component of the result is the SQUARE of the
standard error returned by the code (see the file header).
-------------------------------------------------------------------- -/

/-- np.mean of a one-dimensional array, exact value. -/
def npMean (x : List ℚ) : ℚ := x.sum / x.length

/-- The square of np.std: the population variance, mean of the squared
deviations from the mean. -/
def npVar (x : List ℚ) : ℚ := npMean (x.map fun v => (v - npMean x) ^ 2)

/-- np.average(x, weights=w), exact value. -/
def npAverage (x w : List ℚ) : ℚ :=
  (List.zipWith (fun a b => a * b) x w).sum / w.sum

/-- The 1e-9 guard the code adds to the effective-sample-size denominator. -/
def eps : ℚ := 1 / 1000000000

/-- weighted_mean_std (lines 111-120).  Without weights: Neff = x.size,
mean = np.mean(x), std = np.std(x)/np.sqrt(Neff-1+1e-9).  With weights:
Neff = np.sum(w)**2/np.sum(w**2), mean = np.average(x, weights=w),
std = (np.average((x-mean)**2, weights=w)/(Neff-1+1e-9))**0.5.
The second component returned here is the square of std, which is an
exact rational (file header). -/
def weighted_mean_std (x : List ℚ) (w : Option (List ℚ)) : ℚ × ℚ :=
  match w with
  | none =>
      let Neff : ℚ := x.length
      (npMean x, npVar x / (Neff - 1 + eps))
  | some w =>
      let Neff : ℚ := w.sum ^ 2 / (w.map fun v => v ^ 2).sum
      let mean := npAverage x w
      (mean, npAverage (x.map fun v => (v - mean) ^ 2) w / (Neff - 1 + eps))

/- --------------------------------------------------------------------
Statements of the specification formulas (spec section 4.1), written with
indexed sums, to be compared with the list-fold computations above.
-------------------------------------------------------------------- -/

/-- Spec 4.1: the sample mean of the values. -/
def specMean (x : List ℚ) : ℚ :=
  (∑ i ∈ Finset.range x.length, x.getD i 0) / x.length

/-- Spec 4.1, no weights: squared standard error
(sample std squared over N - 1 + 1e-9, with N the count of values). -/
def specStdErrSq (x : List ℚ) : ℚ :=
  ((∑ i ∈ Finset.range x.length, (x.getD i 0 - specMean x) ^ 2) / x.length)
    / ((x.length : ℚ) - 1 + eps)

/-- Spec 4.1: the Kish effective sample size, (sum of w) squared over the
sum of the squared w. -/
def specKish (w : List ℚ) : ℚ :=
  (∑ i ∈ Finset.range w.length, w.getD i 0) ^ 2
    / (∑ i ∈ Finset.range w.length, (w.getD i 0) ^ 2)

/-- Spec 4.1: the weighted average of the values. -/
def specWAvg (x w : List ℚ) : ℚ :=
  (∑ i ∈ Finset.range x.length, w.getD i 0 * x.getD i 0)
    / (∑ i ∈ Finset.range w.length, w.getD i 0)

/-- Spec 4.1, with weights: squared standard error, the weighted average
of the squared deviations divided by (Kish size - 1 + 1e-9). -/
def specWStdErrSq (x w : List ℚ) : ℚ :=
  ((∑ i ∈ Finset.range x.length, w.getD i 0 * (x.getD i 0 - specWAvg x w) ^ 2)
      / (∑ i ∈ Finset.range w.length, w.getD i 0))
    / (specKish w - 1 + eps)


/- --------------------------------------------------------------------
Partiality-aware layer (file header): floats as Option Rat, Python
exceptions as Except PyErr.
-------------------------------------------------------------------- -/

/-- The Python runtime exceptions raised by the modelled code paths.
valueError is the ValueError raised by list2array (line 106), the
InvalidInputError of the spec. -/
inductive PyErr where
  | valueError
  | attributeError
  | typeError
  | indexError
  | keyError
  | zeroDivisionError
  | nameError
  deriving DecidableEq

/-- A floating-point value: some q is a finite value of exact magnitude q;
none is NaN, an infinity, or a value with no exact rational
representation (file header). -/
abbrev F := Option ℚ

def fadd (a b : F) : F := do pure ((← a) + (← b))

def fsub (a b : F) : F := do pure ((← a) - (← b))

def fmul (a b : F) : F := do pure ((← a) * (← b))

/-- Division: a division by exact zero gives NaN or an infinity, both
modelled as none. -/
def fdiv (a b : F) : F := do
  let x ← a
  let y ← b
  if y = 0 then none else pure (x / y)

/-- Integer square root by the base-4 recurrence
sqrt n = 2 * sqrt (n / 4), adjusted by one, with an explicit structural
fuel so that it reduces by iota steps; fuel n is always enough since the
argument is quartered at every step. -/
def sqrtFuel : ℕ → ℕ → ℕ
  | 0, _ => 0
  | f + 1, n =>
    if n < 2 then n
    else
      let s := 2 * sqrtFuel f (n / 4)
      if (s + 1) * (s + 1) ≤ n then s + 1 else s

/-- Integer square root, rounded down. -/
def natSqrt (n : ℕ) : ℕ := sqrtFuel n n

/-- The square root on the rationals: q = a/b in lowest terms has a
rational square root iff a and b are perfect squares.  A negative
argument gives NaN; an irrational result has no exact representation;
both are none. -/
def ratSqrt (q : ℚ) : Option ℚ :=
  if q < 0 then none
  else
    let a := natSqrt q.num.toNat
    let b := natSqrt q.den
    if a * a = q.num.toNat ∧ b * b = q.den then some ((a : ℚ) / (b : ℚ))
    else none

def fsqrt (a : F) : F := a.bind ratSqrt

/-- np.sum of a float array: none once any term is none. -/
def fsum (l : List F) : F := l.foldr fadd (some 0)

/-- np.mean of a raw float slice: NaN on an empty slice. -/
def npMeanF (x : List ℚ) : F :=
  if x.length = 0 then none else some (x.sum / x.length)

/-- np.std of a raw float slice: the square root of the population
variance, NaN on an empty slice. -/
def npStdF (x : List ℚ) : F :=
  fsqrt (if x.length = 0 then none else some (npVar x))

/-- weighted_mean_std without weights (lines 112-115) in the float model,
as called by the aggregators on raw event-field slices; this branch
cannot raise. -/
def weighted_mean_stdN (x : List ℚ) : F × F :=
  let Neff : ℚ := x.length
  (npMeanF x, fdiv (npStdF x) (fsqrt (some (Neff - 1 + eps))))

/-- np.average(x, weights=w): raises ZeroDivisionError iff the weight sum
is exactly zero (a NaN weight sum does not raise and propagates NaN). -/
def npAverageF (x w : List F) : Except PyErr F :=
  match fsum w with
  | none => .ok (fdiv (fsum (List.zipWith fmul x w)) none)
  | some s =>
      if s = 0 then .error .zeroDivisionError
      else .ok (fdiv (fsum (List.zipWith fmul x w)) (some s))

/-- weighted_mean_std with weights (lines 116-119) in the float model. -/
def weighted_mean_stdW (x w : List F) : Except PyErr (F × F) := do
  let neff := fdiv (fmul (fsum w) (fsum w)) (fsum (w.map fun v => fmul v v))
  let mean ← npAverageF x w
  let varw ← npAverageF (x.map fun v => fmul (fsub v mean) (fsub v mean)) w
  .ok (mean, fsqrt (fdiv varw (fadd (fsub neff (some 1)) (some eps))))

/- --------------------------------------------------------------------
The per-event record (result_dtype, lines 47-85), restricted to the
fields the aggregation code reads.  The unused fields (initial_entropy,
impact_parameter, npart, Tmunu, Tmunu_chg, pT_fluct_pid) are omitted.
Integer count fields are held as rationals: the code only uses them in
float arithmetic.
-------------------------------------------------------------------- -/

def NpT : ℕ := 10

def Nharmonic : ℕ := 8

def Nharmonic_diff : ℕ := 5

/-- The species list (lines 19-28), names only: the particle ids are
never used by the aggregation code. -/
def speciesNames : List String :=
  ["pion", "kaon", "proton", "Lambda", "Sigma0", "Xi", "Omega", "phi"]

/-- pi_K_p (lines 29-33): also the field set of the d_flow_pid
sub-record. -/
def pi_K_p : List String := ["pion", "kaon", "proton"]

structure PTFluctRec where
  n : ℚ
  sum_pT : ℚ
  sum_pT2 : ℚ

structure FlowRec where
  n : ℚ
  qn : ℕ → ℚ × ℚ

structure DFlowRec where
  n : ℕ → ℚ
  qn : ℕ → ℕ → ℚ × ℚ

structure VRec where
  dNch_deta : ℚ
  dET_deta : ℚ
  dN_dy : String → ℚ
  mean_pT : String → ℚ
  pT_fluct_chg : PTFluctRec
  flow : FlowRec
  d_flow_chg : DFlowRec
  d_flow_pid : String → DFlowRec

/-- One event file holds one record per viscous-correction variant
(number_of_models_per_run = 4 in configurations.py); the code selects the
variant axis with the index idf. -/
abbrev Event := ℕ → VRec

/- --------------------------------------------------------------------
The centrality binner and Python array mechanics.
-------------------------------------------------------------------- -/

/-- astype(int): truncation toward zero. -/
def npTrunc (q : ℚ) : ℤ := if q < 0 then -(Int.floor (-q)) else Int.floor q

/-- index = (cen/100.*Ne).astype(int) (line 126 and analogues). -/
def centIndex (cen : List (ℚ × ℚ)) (Ne : ℕ) : List (ℤ × ℤ) :=
  cen.map fun p => (npTrunc (p.1 / 100 * Ne), npTrunc (p.2 / 100 * Ne))

/-- cenM = np.mean(cen, axis=1): the centrality bin midpoints. -/
def cenMid (cen : List (ℚ × ℚ)) : List ℚ := cen.map fun p => (p.1 + p.2) / 2

/-- A Python slice a[nl:nh].  Every verified use has 0 <= nl <= nh;
negative indices (Python wraparound) do not occur there. -/
def pySlice {α : Type} (col : List α) (nl nh : ℤ) : List α :=
  (col.drop nl.toNat).take (nh.toNat - nl.toNat)

/-- The field access ds[exp] on the ensemble: np.array of an empty Python
list is a plain float64 array without named fields, so indexing it with a
field-name string raises IndexError; a non-empty list of result_dtype
records keeps the record dtype and the access succeeds. -/
def npField (ds : List Event) : Except PyErr Unit :=
  if ds.isEmpty then .error .indexError else .ok ()

/-- A Python for-loop collecting one value per iteration; an uncaught
exception aborts the loop. -/
def mapE {α β : Type} (f : α → Except PyErr β) :
    List α → Except PyErr (List β)
  | [] => .ok []
  | a :: t => do
      let b ← f a
      let bs ← mapE f t
      .ok (b :: bs)

/-- A Python for-loop threading a state value. -/
def foldE {α β : Type} (f : β → α → Except PyErr β) :
    β → List α → Except PyErr β
  | b, [] => .ok b
  | b, a :: t => do foldE f (← f b a) t

/-- The dictionary returned by the scalar aggregators. -/
structure CalcOut where
  name : String
  cenM : List ℚ
  obs : List F
  err : List F

/-- The dictionary returned by the per-species aggregators. -/
structure CalcOutS where
  name : String
  cenM : List ℚ
  obs : String → List F
  err : String → List F

/-- The dictionary returned by calculate_vn: one row per centrality bin,
one column per harmonic. -/
structure CalcOutV where
  name : String
  cenM : List ℚ
  obs : List (List F)
  err : List (List F)

/-- The dictionary returned by calculate_diff_vn. -/
structure CalcOutD where
  name : String
  cenM : List ℚ
  pTM : List ℚ
  obs : List (List (List F))
  err : List (List (List F))

/- --------------------------------------------------------------------
The per-observable aggregators.
-------------------------------------------------------------------- -/

/-- One centrality-bin iteration of calculate_dNdeta (lines 129-131):
line 130 widens a collapsed bin, nh = np.max([nh, nl+1]), before slicing
the field column. -/
def binDNdeta (ds : List Event) (col : List ℚ) (nlh : ℤ × ℤ) :
    Except PyErr (F × F) := do
  let _ ← npField ds
  let nh := max nlh.2 (nlh.1 + 1)
  .ok (weighted_mean_stdN (pySlice col nlh.1 nh))

/-- One centrality-bin iteration of the scalar reductions without
widening (calculate_dETdeta line 143, calculate_dNdy line 155,
calculate_mean_pT line 167). -/
def binField (ds : List Event) (col : List ℚ) (nlh : ℤ × ℤ) :
    Except PyErr (F × F) := do
  let _ ← npField ds
  .ok (weighted_mean_stdN (pySlice col nlh.1 nlh.2))

/-- calculate_dNdeta (lines 123-133).  The Name value of the returned
dictionary is the string the source writes. -/
def calculate_dNdeta (ds : List Event) (cen : List (ℚ × ℚ)) (idf : ℕ) :
    Except PyErr CalcOut := do
  let Ne := ds.length
  let index := centIndex cen Ne
  let pairs ← mapE (binDNdeta ds (ds.map fun e => (e idf).dNch_deta)) index
  .ok ⟨"dNch_deta", cenMid cen, pairs.map Prod.fst, pairs.map Prod.snd⟩

/-- calculate_dETdeta (lines 136-145): no widening of collapsed bins.
The source labels this dictionary dNch_deta as well. -/
def calculate_dETdeta (ds : List Event) (cen : List (ℚ × ℚ)) (idf : ℕ) :
    Except PyErr CalcOut := do
  let Ne := ds.length
  let index := centIndex cen Ne
  let pairs ← mapE (binField ds (ds.map fun e => (e idf).dET_deta)) index
  .ok ⟨"dNch_deta", cenMid cen, pairs.map Prod.fst, pairs.map Prod.snd⟩

/-- calculate_dNdy (lines 147-157): the same reduction per species key. -/
def calculate_dNdy (ds : List Event) (cen : List (ℚ × ℚ)) (idf : ℕ) :
    Except PyErr CalcOutS := do
  let Ne := ds.length
  let index := centIndex cen Ne
  let rows ← mapE (fun s => do
      let pairs ← mapE (binField ds (ds.map fun e => (e idf).dN_dy s)) index
      .ok (s, pairs)) speciesNames
  .ok ⟨"dNch_deta", cenMid cen,
    fun s => ((rows.lookup s).getD []).map Prod.fst,
    fun s => ((rows.lookup s).getD []).map Prod.snd⟩

/-- calculate_mean_pT (lines 159-169): the same reduction per species key
on the mean_pT field. -/
def calculate_mean_pT (ds : List Event) (cen : List (ℚ × ℚ)) (idf : ℕ) :
    Except PyErr CalcOutS := do
  let Ne := ds.length
  let index := centIndex cen Ne
  let rows ← mapE (fun s => do
      let pairs ← mapE (binField ds (ds.map fun e => (e idf).mean_pT s)) index
      .ok (s, pairs)) speciesNames
  .ok ⟨"dNch_deta", cenMid cen,
    fun s => ((rows.lookup s).getD []).map Prod.fst,
    fun s => ((rows.lookup s).getD []).map Prod.snd⟩

/-- The body of the centrality-bin loop of calculate_mean_pT_fluct
(lines 180-199), on the slices N, sum_pT, sum_pT2 of one bin:
Npairs = N(N-1)/2, M = sum over events of sum_pT divided by the sum of N,
x as in line 196, weighted mean and std of x with weight Npairs, then
obs = sqrt(meanC)/M and err = stdC/2/sqrt(meanC)/M.  There is no guard
for M = 0 here. -/
def binFluct (n sum_pT sum_pT2 : List ℚ) : Except PyErr (F × F) := do
  let npairs : List ℚ := n.map fun v => 1/2 * v * (v - 1)
  let M : F := fdiv (some sum_pT.sum) (some n.sum)
  let x : List F :=
    (n.zip (sum_pT.zip sum_pT2)).map fun t =>
      let npi : ℚ := 1/2 * t.1 * (t.1 - 1)
      fdiv (fadd (fsub (some (1/2 * (t.2.1 ^ 2 - t.2.2)))
              (fmul (fmul M (some (t.1 - 1))) (some t.2.1)))
            (fmul (fmul M M) (some npi)))
        (some npi)
  let ms ← weighted_mean_stdW x (npairs.map some)
  .ok (fdiv (fsqrt ms.1) M,
       fdiv (fdiv (fmul ms.2 (some (1/2))) (fsqrt ms.1)) M)

/-- One centrality-bin iteration of calculate_mean_pT_fluct
(lines 180-199): take the three sufficient-statistic slices of the bin
and reduce them with binFluct. -/
def binFluctAt (ds : List Event) (idf : ℕ) (nlh : ℤ × ℤ) :
    Except PyErr (F × F) := do
  let _ ← npField ds
  binFluct
    (pySlice (ds.map fun e => (e idf).pT_fluct_chg.n) nlh.1 nlh.2)
    (pySlice (ds.map fun e => (e idf).pT_fluct_chg.sum_pT) nlh.1 nlh.2)
    (pySlice (ds.map fun e => (e idf).pT_fluct_chg.sum_pT2) nlh.1 nlh.2)

/-- calculate_mean_pT_fluct (lines 171-202).  The outer loop over species
(line 178) recomputes the same bins once per species name, overwriting
identical values; its loop variable is unused in the body. -/
def calculate_mean_pT_fluct (ds : List Event) (cen : List (ℚ × ℚ))
    (idf : ℕ) : Except PyErr CalcOut := do
  let Ne := ds.length
  let index := centIndex cen Ne
  let runBins : Except PyErr (List (F × F)) := mapE (binFluctAt ds idf) index
  let pairs ← foldE (fun _ _ => runBins)
      (index.map fun _ => ((some 0 : F), (some 0 : F))) speciesNames
  .ok ⟨"dNch_deta", cenMid cen, pairs.map Prod.fst, pairs.map Prod.snd⟩

/-- obs_and_err inside calculate_vn (lines 206-215): per-event pair weight
w = m(m-1); if the weight sum is exactly zero the function returns the
pair (0, 0) at once; otherwise cn2 = (abs(qn) squared - m)/w, reduced by
the weighted statistics, vn = sqrt of the average, error = std/2/vn.
The list2array decorator converts both arguments with np.array; on the
numpy slices passed by calculate_vn that conversion is the identity (the
failure path of the decorator is modelled by list2array further down). -/
def obs_and_err (qn : List (ℚ × ℚ)) (m : List ℚ) : Except PyErr (F × F) := do
  let w : List ℚ := m.map fun v => v * (v - 1)
  if w.sum = 0 then .ok (some 0, some 0)
  else do
    let cn2 : List F :=
      List.zipWith (fun q v =>
          fdiv (some (q.1 ^ 2 + q.2 ^ 2 - v)) (some (v * (v - 1)))) qn m
    let ms ← weighted_mean_stdW cn2 (w.map some)
    let vn := fsqrt ms.1
    .ok (vn, fdiv (fdiv ms.2 (some 2)) vn)

/-- One centrality-bin iteration of calculate_vn (lines 223-227): slice
the flow multiplicities once, then reduce each harmonic's Q-vector slice
with obs_and_err. -/
def binVn (ds : List Event) (idf : ℕ) (nlh : ℤ × ℤ) :
    Except PyErr (List (F × F)) := do
  let _ ← npField ds
  let m := pySlice (ds.map fun e => (e idf).flow.n) nlh.1 nlh.2
  mapE (fun nh => do
      let q := pySlice (ds.map fun e => (e idf).flow.qn nh) nlh.1 nlh.2
      obs_and_err q m) (List.range Nharmonic)

/-- calculate_vn (lines 205-229). -/
def calculate_vn (ds : List Event) (cen : List (ℚ × ℚ)) (idf : ℕ) :
    Except PyErr CalcOutV := do
  let Ne := ds.length
  let index := centIndex cen Ne
  let rows ← mapE (binVn ds idf) index
  .ok ⟨"vn", cenMid cen, rows.map (fun r => r.map Prod.fst),
    rows.map (fun r => r.map Prod.snd)⟩

/-- system_strs from configurations.py (lines 65-71): the systems list
restricted to its uncommented entries. -/
def system_strs : List String := ["Pb-Pb-2760", "Au-Au-200"]

/-- The module-level name s visible inside calculations_average_obs.py:
the for-loop over system_strs at configurations.py lines 241-249 runs
when the module loads and leaves its loop variable bound to the last
system string, and the star import at line 9 of
calculations_average_obs.py brings that
binding into scope.  calculate_diff_vn reads this stale global at its
line 245. -/
def leaked_s : String := "Au-Au-200"

/-- The structured-array access data['d_flow_pid'][key]: the sub-record
has exactly the pi_K_p fields (lines 81-83); any other name raises
KeyError. -/
def getDFlowPid (v : VRec) (s : String) : Except PyErr DFlowRec :=
  if s ∈ pi_K_p then .ok (v.d_flow_pid s) else .error .keyError

/-- calculate_diff_vn (lines 232-263).  For pid different from chg the
data selection indexes d_flow_pid with the stale global leaked_s. -/
def calculate_diff_vn (ds : List Event) (cenbins pTbins : List (ℚ × ℚ))
    (idf : ℕ) (pid : String := "chg") : Except PyErr CalcOutD := do
  let Ne := ds.length
  let cindex := centIndex cenbins Ne
  let _ ← npField ds
  let data ←
    if pid = "chg" then .ok (ds.map fun e => (e idf).d_flow_chg)
    else mapE (fun e => getDFlowPid (e idf) leaked_s) ds
  let vnref ← calculate_vn ds cenbins idf
  let rows ← mapE (fun inlh : ℕ × (ℤ × ℤ) => do
      mapE (fun j => do
          mapE (fun nh2 => do
              let w : List ℚ :=
                List.zipWith (fun a b => a * b)
                  (pySlice (data.map fun d => d.n j) inlh.2.1 inlh.2.2)
                  (pySlice (ds.map fun e => (e idf).flow.n) inlh.2.1
                    inlh.2.2)
              let dn2 : List F :=
                List.zipWith (fun p v =>
                    fdiv (some (p.1.1 * p.2.1 + p.1.2 * p.2.2)) (some v))
                  ((pySlice (data.map fun d => d.qn j nh2) inlh.2.1
                      inlh.2.2).zip
                    (pySlice (ds.map fun e => (e idf).flow.qn nh2) inlh.2.1
                      inlh.2.2)) w
              let ms ← weighted_mean_stdW dn2 (w.map some)
              let vref := (vnref.obs.getD inlh.1 []).getD nh2 none
              .ok (fdiv ms.1 vref, fdiv ms.2 vref))
            (List.range Nharmonic_diff))
        (List.range pTbins.length)) cindex.enum
  .ok ⟨"vn2", cenMid cenbins, cenMid pTbins,
    rows.map (fun r => r.map (fun r2 => r2.map Prod.fst)),
    rows.map (fun r => r.map (fun r2 => r2.map Prod.snd))⟩

/- --------------------------------------------------------------------
The design-point driver (lines 286-347) and the batch loop (351-360).
-------------------------------------------------------------------- -/

/-- Stable descending insertion into an already-sorted list: the inserted
element passes over every element whose key is not smaller than its
own. -/
def insertDesc (key : Event → ℚ) (e : Event) : List Event → List Event
  | [] => [e]
  | a :: t => if key a < key e then e :: a :: t else a :: insertDesc key e t

/-- Line 301: res = np.array(sorted(res_unsort, key =
lambda x: x['ALICE'][idf]['dNch_deta'], reverse=True)), a stable
descending sort by the charged-multiplicity field of the selected
variant. -/
def driverSort (events : List Event) (idf : ℕ) : List Event :=
  events.foldr (insertDesc fun e => (e idf).dNch_deta) []

/-- One mean/err pair of output arrays, the columns indexed by the
variant index idf. -/
structure ObsSlot where
  mean : ℕ → List F
  err : ℕ → List F

/-- The output record (bayes_dtype, lines 90-97) for the selected system:
per observable a mean and an err array over (centrality bin, idf). -/
structure Entry where
  dNch_deta : ObsSlot
  dET_deta : ObsSlot
  dN_dy : String → ObsSlot
  mean_pT : String → ObsSlot
  pT_fluct : ObsSlot
  vn2 : ℕ → ObsSlot

/-- Modelled from the spec: obs_cent_list, the per-observable centrality
schedule table of the selected system.  The table lives in
bins_and_cuts.py, which is not among the sources; spec sections 3 and 6
describe it as externally configured, read-only, mapping each observable
to an ordered list of percentile pairs. -/
structure ObsCentConfig where
  dNch_deta : List (ℚ × ℚ)
  dET_deta : List (ℚ × ℚ)
  dN_dy : String → List (ℚ × ℚ)
  mean_pT : String → List (ℚ × ℚ)
  pT_fluct : List (ℚ × ℚ)
  vn2 : ℕ → List (ℚ × ℚ)

def zeroSlot (cen : List (ℚ × ℚ)) : ObsSlot :=
  ⟨fun _ => List.replicate cen.length (some 0),
   fun _ => List.replicate cen.length (some 0)⟩

/-- Line 288: entry = np.zeros(1, dtype=np.dtype(bayes_dtype)). -/
def initEntry (cfg : ObsCentConfig) : Entry :=
  ⟨zeroSlot cfg.dNch_deta, zeroSlot cfg.dET_deta,
   fun s => zeroSlot (cfg.dN_dy s), fun s => zeroSlot (cfg.mean_pT s),
   zeroSlot cfg.pT_fluct, fun n => zeroSlot (cfg.vn2 n)⟩

/-- One species iteration of the mean-pT loop of the driver
(lines 326-330): run the mean-pT reduction for species s, write its mean
into the mean_pT_(s) mean column — and write its error into the
dN_dy_(s) error column (line 330), not into the mean_pT_(s) error
column, which is never written. -/
def meanpTSpecies (cfg : ObsCentConfig) (res : List Event) (idf : ℕ)
    (entry : Entry) (s : String) : Except PyErr Entry := do
  let info ← calculate_mean_pT res (cfg.mean_pT s) idf
  let slotM : ObsSlot :=
    ⟨Function.update (entry.mean_pT s).mean idf (info.obs s),
     (entry.mean_pT s).err⟩
  let entry2 := { entry with mean_pT := Function.update entry.mean_pT s slotM }
  let slotD : ObsSlot :=
    ⟨(entry2.dN_dy s).mean,
     Function.update (entry2.dN_dy s).err idf (info.err s)⟩
  .ok { entry2 with dN_dy := Function.update entry2.dN_dy s slotD }

/-- The mean-pT step of the driver (lines 325-330). -/
def meanpTStep (cfg : ObsCentConfig) (res : List Event) (idf : ℕ)
    (entry : Entry) : Except PyErr Entry :=
  foldE (meanpTSpecies cfg res idf) entry ["pion", "kaon", "proton"]

/-- The body of the idf loop of load_and_compute_single_design
(lines 302-346) on the sorted ensemble res. -/
def aggregateIdf (cfg : ObsCentConfig) (res : List Event) (idf : ℕ)
    (entry : Entry) : Except PyErr Entry := do
  let infoN ← calculate_dNdeta res cfg.dNch_deta idf
  let entry := { entry with dNch_deta :=
    ⟨Function.update entry.dNch_deta.mean idf infoN.obs,
     Function.update entry.dNch_deta.err idf infoN.err⟩ }
  let infoE ← calculate_dETdeta res cfg.dET_deta idf
  let entry := { entry with dET_deta :=
    ⟨Function.update entry.dET_deta.mean idf infoE.obs,
     Function.update entry.dET_deta.err idf infoE.err⟩ }
  let entry ← foldE (fun entry s => do
      let info ← calculate_dNdy res (cfg.dN_dy s) idf
      let slot : ObsSlot :=
        ⟨Function.update (entry.dN_dy s).mean idf (info.obs s),
         Function.update (entry.dN_dy s).err idf (info.err s)⟩
      .ok { entry with dN_dy := Function.update entry.dN_dy s slot })
    entry ["pion", "kaon", "proton", "Lambda", "Omega", "Xi"]
  let entry ← meanpTStep cfg res idf entry
  let infoF ← calculate_mean_pT_fluct res cfg.pT_fluct idf
  let entry := { entry with pT_fluct :=
    ⟨Function.update entry.pT_fluct.mean idf infoF.obs,
     Function.update entry.pT_fluct.err idf infoF.err⟩ }
  let entry ← foldE (fun entry nv => do
      let info ← calculate_vn res (cfg.vn2 nv) idf
      let slotV : ObsSlot :=
        ⟨Function.update (entry.vn2 nv).mean idf
           (info.obs.map fun row => row.getD (nv - 1) none),
         Function.update (entry.vn2 nv).err idf
           (info.err.map fun row => row.getD (nv - 1) none)⟩
      .ok { entry with vn2 := Function.update entry.vn2 nv slotV })
    entry [2, 3, 4]
  .ok entry

/-- load_and_compute_single_design (lines 286-347) after its LOAD step:
events is the list of per-event record arrays that were successfully read
(unreadable or empty per-event files are skipped by the try of lines
290-296).  For each idf in [0, 3] the ensemble is re-sorted descending by
the charged-multiplicity field of that variant and every aggregator
result is written into the output record. -/
def load_and_compute_single_design (cfg : ObsCentConfig)
    (events : List Event) : Except PyErr Entry :=
  foldE (fun entry idf =>
      aggregateIdf cfg (driverSort events idf) idf entry)
    (initEntry cfg) [0, 3]

/-- The batch loop of the main block (lines 355-359): one driver call per
design point with no exception handling around it, so a raise inside one
design point aborts the whole batch. -/
def processDesigns (cfg : ObsCentConfig) (designs : List (List Event)) :
    Except PyErr (List Entry) :=
  mapE (load_and_compute_single_design cfg) designs

/- --------------------------------------------------------------------
The list2array decorator (lines 100-108) and a direct Python-level call
of weighted_mean_std (lines 111-120).  Python values are modelled to
nesting depth two, which suffices for every flat or ragged input
considered in the claims.
-------------------------------------------------------------------- -/

/-- An element of a Python list passed to the statistics code: a number
or a nested list of numbers. -/
inductive PyItem where
  | inum (q : ℚ)
  | ilist (xs : List ℚ)
  deriving DecidableEq

/-- A Python value passed to the statistics code: a scalar, a numpy
array, or a plain Python list. -/
inductive PyVal where
  | num (q : ℚ)
  | nd (xs : List ℚ)
  | pylist (es : List PyItem)
  deriving DecidableEq

/-- np.array on such a value: a scalar gives a zero-dimensional array
(held here as its single value), an array is returned unchanged, a flat
numeric list becomes a one-dimensional array, equal-length nested lists
become a two-dimensional array (held here flattened; no verified claim
reads that payload), and ragged nesting makes np.array raise, which
list2array converts to its ValueError (numpy 1.24 and later; older numpy
releases produced an object array with a deprecation warning instead). -/
def npArray : PyVal → Option PyVal
  | .num q => some (.nd [q])
  | .nd xs => some (.nd xs)
  | .pylist es =>
      match es.mapM (fun e => match e with
          | .inum q => some q
          | .ilist _ => none) with
      | some flat => some (.nd flat)
      | none =>
          match es.mapM (fun e => match e with
              | .ilist xs => some xs
              | .inum _ => none) with
          | some rows =>
              match rows with
              | [] => some (.nd [])
              | r :: rest =>
                  if rest.all fun t => t.length = r.length then
                    some (.nd rows.flatten)
                  else none
          | none => none

/-- The list2array decorator (lines 100-108): it converts both arguments
with np.array inside a try; on failure it raises ValueError, the message
being cannot interpret input as numpy array (the InvalidInputError of the
spec), and otherwise calls the wrapped function on the converted values.
In the source it decorates obs_and_err only; weighted_mean_std is not
decorated. -/
def list2array {α : Type} (f : PyVal → PyVal → Except PyErr α)
    (x w : PyVal) : Except PyErr α :=
  match npArray x with
  | none => .error .valueError
  | some xa =>
      match npArray w with
      | none => .error .valueError
      | some wa => f xa wa

/-- weighted_mean_std called directly, undecorated, on raw Python values
(lines 111-120).  Without weights the first operation is the attribute
access x.size (line 113), which only a numpy array has: a plain list or
scalar raises AttributeError before any arithmetic.  With an ndarray
weight argument, np.average (line 118) raises TypeError when the shapes
of x and w differ, ValueError when x is ragged, ZeroDivisionError when
the weight sum is zero; and if np.average succeeds on a plain-list x, the
elementwise subtraction x - mean at line 119 raises TypeError, because a
Python list does not subtract a float.  A non-array weight argument
raises TypeError at the elementwise w**2 of line 117. -/
def weighted_mean_std_py (x : PyVal) (w : Option PyVal) :
    Except PyErr (F × F) :=
  match w with
  | none =>
      match x with
      | .nd xs => .ok (weighted_mean_stdN xs)
      | _ => .error .attributeError
  | some wv =>
      match wv with
      | .nd ws =>
          match x with
          | .nd xs =>
              if xs.length = ws.length then
                weighted_mean_stdW (xs.map some) (ws.map some)
              else .error .typeError
          | .num _ => .error .typeError
          | .pylist es =>
              match es.mapM (fun e => match e with
                  | .inum q => some q
                  | .ilist _ => none) with
              | some xs =>
                  if xs.length = ws.length then
                    if ws.sum = 0 then .error .zeroDivisionError
                    else .error .typeError
                  else .error .typeError
              | none =>
                  match npArray (.pylist es) with
                  | none => .error .valueError
                  | some _ => .error .typeError
      | _ => .error .typeError

/- --------------------------------------------------------------------
Concrete inputs used by witnesses and counterexamples.
-------------------------------------------------------------------- -/

/-- A variant record: two charged particles of zero total pT, zero flow
multiplicity, identified yields 10, mean pT 1. -/
def vrA : VRec :=
  { dNch_deta := 5, dET_deta := 7, dN_dy := fun _ => 10,
    mean_pT := fun _ => 1,
    pT_fluct_chg := ⟨2, 0, 0⟩,
    flow := ⟨0, fun _ => (1, 0)⟩,
    d_flow_chg := ⟨fun _ => 1, fun _ _ => (1, 0)⟩,
    d_flow_pid := fun _ => ⟨fun _ => 1, fun _ _ => (1, 0)⟩ }

/-- A second variant record: smaller multiplicity, mean pT 2. -/
def vrB : VRec := { vrA with dNch_deta := 3, mean_pT := fun _ => 2 }

def evA : Event := fun _ => vrA

def evB : Event := fun _ => vrB

/-- A zero-activity event for the pT-fluctuation statistics: no charged
particles at all, so N = sum_pT = sum_pT2 = 0 and the event contributes
zero pairs. -/
def evC : Event := fun _ => { vrA with pT_fluct_chg := ⟨0, 0, 0⟩ }

/-- A schedule table with a single 0-100 percent bin for every
observable. -/
def cfgOne : ObsCentConfig :=
  { dNch_deta := [(0, 100)], dET_deta := [(0, 100)],
    dN_dy := fun _ => [(0, 100)], mean_pT := fun _ => [(0, 100)],
    pT_fluct := [(0, 100)], vn2 := fun _ => [(0, 100)] }

/-- Spec section 8: the arithmetic mean of a list of values. -/
def arithMean (l : List ℚ) : ℚ := l.sum / l.length

/- --------------------------------------------------------------------
Theorems.
-------------------------------------------------------------------- -/

/- Helper lemmas relating list folds and indexed sums. -/

/-- The fuel-based integer square root agrees with the library floor
square root whenever the fuel dominates the argument: the argument is
quartered at every step, so fuel n always suffices. -/
theorem sqrtFuel_eq_sqrt (f : ℕ) : ∀ n : ℕ, n ≤ f → sqrtFuel f n = Nat.sqrt n := by
  induction f with
  | zero =>
    intro n h
    obtain rfl : n = 0 := Nat.le_zero.mp h
    simp [sqrtFuel]
  | succ f ih =>
    intro n h
    simp only [sqrtFuel]
    by_cases h2 : n < 2
    · rw [if_pos h2]
      interval_cases n
      · simp
      · simp
    · rw [if_neg h2]
      push_neg at h2
      have hrec : n / 4 ≤ f := by omega
      rw [ih _ hrec]
      have hq1 : Nat.sqrt (n / 4) * Nat.sqrt (n / 4) ≤ n / 4 := Nat.sqrt_le (n / 4)
      have hq2 : n / 4 < (Nat.sqrt (n / 4) + 1) * (Nat.sqrt (n / 4) + 1) :=
        Nat.lt_succ_sqrt (n / 4)
      have hdivmul : 4 * (n / 4) ≤ n := by omega
      have hmod : n < 4 * (n / 4) + 4 := by omega
      have hlow : (2 * Nat.sqrt (n / 4)) * (2 * Nat.sqrt (n / 4)) ≤ n := by
        nlinarith
      have hhigh : n < (2 * Nat.sqrt (n / 4) + 2) * (2 * Nat.sqrt (n / 4) + 2) := by
        nlinarith
      by_cases h3 : (2 * Nat.sqrt (n / 4) + 1) * (2 * Nat.sqrt (n / 4) + 1) ≤ n
      · rw [if_pos h3]
        have ha : 2 * Nat.sqrt (n / 4) + 1 ≤ Nat.sqrt n := Nat.le_sqrt.mpr h3
        have hb : Nat.sqrt n < 2 * Nat.sqrt (n / 4) + 2 := Nat.sqrt_lt.mpr hhigh
        omega
      · rw [if_neg h3]
        push_neg at h3
        have ha : 2 * Nat.sqrt (n / 4) ≤ Nat.sqrt n := Nat.le_sqrt.mpr hlow
        have hb : Nat.sqrt n < 2 * Nat.sqrt (n / 4) + 1 := Nat.sqrt_lt.mpr h3
        omega

/-- The integer square root used by ratSqrt is the floor square root. -/
theorem natSqrt_eq_sqrt (n : ℕ) : natSqrt n = Nat.sqrt n :=
  sqrtFuel_eq_sqrt n n le_rfl

theorem sum_getD_range (l : List ℚ) :
    (∑ i ∈ Finset.range l.length, l.getD i 0) = l.sum := by
  induction l with
  | nil => simp
  | cons a t ih =>
      rw [List.length_cons, Finset.sum_range_succ']
      simp only [List.getD_cons_succ, List.getD_cons_zero, ih]
      rw [List.sum_cons]; ring

theorem sum_zip_mul (x w : List ℚ) (h : w.length = x.length) :
    (List.zipWith (fun a b => a * b) x w).sum
      = ∑ i ∈ Finset.range x.length, w.getD i 0 * x.getD i 0 := by
  induction x generalizing w with
  | nil => simp
  | cons a t ih =>
      cases w with
      | nil => simp at h
      | cons b s =>
          rw [List.zipWith_cons_cons, List.sum_cons, List.length_cons,
            Finset.sum_range_succ']
          simp only [List.getD_cons_succ, List.getD_cons_zero]
          rw [ih s (by simpa using h)]
          ring

theorem getD_map_lt (f : ℚ → ℚ) (l : List ℚ) (i : ℕ) (h : i < l.length) :
    (l.map f).getD i 0 = f (l.getD i 0) := by
  induction l generalizing i with
  | nil => simp at h
  | cons a t ih =>
      cases i with
      | zero => simp
      | succ j => simpa using ih j (by simpa using h)

theorem npMean_eq_specMean (x : List ℚ) : npMean x = specMean x := by
  unfold npMean specMean
  rw [sum_getD_range]

theorem npVar_eq (x : List ℚ) :
    npVar x
      = (∑ i ∈ Finset.range x.length, (x.getD i 0 - specMean x) ^ 2)
          / (x.length : ℚ) := by
  have h1 : (x.map fun v => (v - npMean x) ^ 2).sum
      = ∑ i ∈ Finset.range x.length, (x.getD i 0 - specMean x) ^ 2 := by
    rw [← sum_getD_range (x.map fun v => (v - npMean x) ^ 2), List.length_map]
    refine Finset.sum_congr rfl (fun i hi => ?_)
    rw [getD_map_lt _ _ _ (Finset.mem_range.mp hi), npMean_eq_specMean]
  show (x.map fun v => (v - npMean x) ^ 2).sum
      / (((x.map fun v => (v - npMean x) ^ 2).length : ℕ) : ℚ) = _
  rw [h1, List.length_map]

theorem npAverage_eq_specWAvg (x w : List ℚ) (h : w.length = x.length) :
    npAverage x w = specWAvg x w := by
  unfold npAverage specWAvg
  rw [sum_zip_mul x w h, sum_getD_range]

/-- C1: without weights, weighted_mean_std returns the sample mean and
(the square of) the standard error std(x)/sqrt(N - 1 + 1e-9) with N the
count of values; with an equal-length positive weight vector it returns
the weighted average and (the square of) the square root of the weighted
average of squared deviations divided by (Neff - 1 + 1e-9), where Neff is
the Kish effective sample size (sum w) squared over (sum of squared w). -/
theorem weighted_mean_std_formula :
    (∀ x : List ℚ, x ≠ [] →
        weighted_mean_std x none = (specMean x, specStdErrSq x)) ∧
    (∀ x w : List ℚ, x ≠ [] → w.length = x.length → (∀ v ∈ w, 0 < v) →
        weighted_mean_std x (some w) = (specWAvg x w, specWStdErrSq x w)) := by
  constructor
  · intro x _
    show (npMean x, npVar x / ((x.length : ℚ) - 1 + eps)) = _
    rw [npMean_eq_specMean, npVar_eq]
    rfl
  · intro x w _ hlen _
    show (npAverage x w,
        npAverage (x.map fun v => (v - npAverage x w) ^ 2) w
          / (w.sum ^ 2 / (w.map fun v => v ^ 2).sum - 1 + eps)) = _
    have hk : w.sum ^ 2 / (w.map fun v => v ^ 2).sum = specKish w := by
      unfold specKish
      rw [sum_getD_range]
      congr 1
      rw [← sum_getD_range (w.map fun v => v ^ 2), List.length_map]
      exact Finset.sum_congr rfl fun i hi =>
        getD_map_lt _ _ _ (Finset.mem_range.mp hi)
    have hnum : npAverage (x.map fun v => (v - npAverage x w) ^ 2) w
        = (∑ i ∈ Finset.range x.length,
            w.getD i 0 * (x.getD i 0 - specWAvg x w) ^ 2)
          / (∑ i ∈ Finset.range w.length, w.getD i 0) := by
      show (List.zipWith (fun a b => a * b)
          (x.map fun v => (v - npAverage x w) ^ 2) w).sum / w.sum = _
      rw [sum_zip_mul _ w (by simpa using hlen), List.length_map,
        sum_getD_range]
      congr 1
      refine Finset.sum_congr rfl fun i hi => ?_
      rw [getD_map_lt _ _ _ (Finset.mem_range.mp hi),
        npAverage_eq_specWAvg x w hlen]
    rw [hnum, hk, npAverage_eq_specWAvg x w hlen]
    rfl

/-- Witness for C1 at x = [1, 2], w = [3, 3]. -/
theorem weighted_mean_std_formula_witness :
    weighted_mean_std [(1 : ℚ), 2] none = (specMean [1, 2], specStdErrSq [1, 2])
    ∧ weighted_mean_std [(1 : ℚ), 2] (some [3, 3])
        = (specWAvg [1, 2] [3, 3], specWStdErrSq [1, 2] [3, 3]) :=
  ⟨weighted_mean_std_formula.1 [1, 2] (by decide),
   weighted_mean_std_formula.2 [1, 2] [3, 3] (by decide) (by decide)
     (by decide)⟩

/- Helper lemmas for constant weight vectors. -/

theorem sum_zip_mul_replicate (y : List ℚ) (c : ℚ) (n : ℕ) (h : n = y.length) :
    (List.zipWith (fun a b => a * b) y (List.replicate n c)).sum = y.sum * c := by
  subst h
  induction y with
  | nil => simp
  | cons a t ih =>
      rw [List.length_cons, List.replicate_succ, List.zipWith_cons_cons,
        List.sum_cons, ih, List.sum_cons]
      ring

theorem npAverage_replicate (y : List ℚ) (c : ℚ) (n : ℕ) (h : n = y.length)
    (hc : c ≠ 0) (hy : y ≠ []) :
    npAverage y (List.replicate n c) = npMean y := by
  subst h
  have hn : (0 : ℚ) < y.length := by exact_mod_cast List.length_pos.mpr hy
  unfold npAverage npMean
  rw [sum_zip_mul_replicate y c _ rfl, List.sum_replicate, nsmul_eq_mul]
  rw [div_eq_div_iff (by positivity) (ne_of_gt hn)]
  ring

/-- C9: for a non-empty x and a weight vector of x.length copies of one
positive value c, weighted_mean_std with those weights equals
weighted_mean_std without weights, exactly (the Kish size reduces to N
and the weighted variance to the population variance). -/
theorem weighted_mean_std_const_weights (x : List ℚ) (c : ℚ)
    (hx : x ≠ []) (hc : 0 < c) :
    weighted_mean_std x (some (List.replicate x.length c))
      = weighted_mean_std x none := by
  have hn : (0 : ℚ) < x.length := by exact_mod_cast List.length_pos.mpr hx
  have hc0 : c ≠ 0 := ne_of_gt hc
  have hNeff : (List.replicate x.length c).sum ^ 2
      / ((List.replicate x.length c).map fun v => v ^ 2).sum
      = (x.length : ℚ) := by
    rw [List.map_replicate, List.sum_replicate, List.sum_replicate,
      nsmul_eq_mul, nsmul_eq_mul]
    rw [div_eq_iff (by positivity)]
    ring
  have hmean : npAverage x (List.replicate x.length c) = npMean x :=
    npAverage_replicate x c _ rfl hc0 hx
  have hmap : ∀ y : List ℚ, y.length = x.length → y ≠ [] →
      npAverage y (List.replicate x.length c) = npMean y := by
    intro y hy hyne
    rw [← hy]
    exact npAverage_replicate y c _ rfl hc0 hyne
  have hvar : npAverage (x.map fun v => (v - npMean x) ^ 2)
      (List.replicate x.length c) = npVar x := by
    unfold npVar
    exact hmap _ (List.length_map _ _) (by simpa using hx)
  show (npAverage x (List.replicate x.length c),
      npAverage (x.map fun v =>
          (v - npAverage x (List.replicate x.length c)) ^ 2)
        (List.replicate x.length c)
        / ((List.replicate x.length c).sum ^ 2
            / ((List.replicate x.length c).map fun v => v ^ 2).sum - 1 + eps))
    = (npMean x, npVar x / ((x.length : ℚ) - 1 + eps))
  rw [hmean, hvar, hNeff]

/-- Witness for C9 at x = [1, 2, 4], c = 5. -/
theorem weighted_mean_std_const_weights_witness :
    weighted_mean_std [(1 : ℚ), 2, 4] (some (List.replicate 3 5))
      = weighted_mean_std [(1 : ℚ), 2, 4] none :=
  weighted_mean_std_const_weights [1, 2, 4] 5 (by decide) (by decide)

/- Helper lemmas about lists, the float model and the loop combinators. -/

theorem getD_eq_get {α : Type} (l : List α) (i : ℕ) (d : α)
    (h : i < l.length) : l.getD i d = l.get ⟨i, h⟩ := by
  induction l generalizing i with
  | nil => simp at h
  | cons a t ih =>
      cases i with
      | zero => rfl
      | succ j => simpa using ih j (by simpa using h)

theorem getD_map {α β : Type} (f : α → β) (l : List α) (i : ℕ) (d : β)
    (h : i < l.length) : (l.map f).getD i d = f (l.get ⟨i, h⟩) := by
  induction l generalizing i with
  | nil => simp at h
  | cons a t ih =>
      cases i with
      | zero => rfl
      | succ j => simpa using ih j (by simpa using h)

theorem fsum_map_some (l : List ℚ) : fsum (l.map some) = some l.sum := by
  induction l with
  | nil => rfl
  | cons a t ih =>
      show fadd (some a) (fsum (t.map some)) = some (a :: t).sum
      rw [ih]
      rfl

theorem fdiv_some_zero (a : F) : fdiv a (some 0) = none := by
  cases a <;> rfl

theorem fdiv_zero_some (s : ℚ) (h : s ≠ 0) :
    fdiv (some 0) (some s) = some 0 := by
  simp [fdiv, h]

theorem npField_ok (ds : List Event) (h : ds ≠ []) :
    npField ds = .ok () := by
  cases ds with
  | nil => exact absurd rfl h
  | cons a t => rfl

theorem exceptBind_ok {ε α β : Type} (a : α) (f : α → Except ε β) :
    (Except.ok a >>= f) = f a := rfl
theorem exceptBind_error {ε α β : Type} (e : ε) (f : α → Except ε β) :
    ((Except.error e : Except ε α) >>= f) = .error e := rfl

theorem npAverageF_map_some (x : List F) (w : List ℚ) (h : w.sum ≠ 0) :
    npAverageF x (w.map some)
      = .ok (fdiv (fsum (List.zipWith fmul x (w.map some)))
          (some w.sum)) := by
  unfold npAverageF
  rw [fsum_map_some]
  simp [h]

theorem weighted_mean_stdW_ok (x : List F) (w : List ℚ) (h : w.sum ≠ 0) :
    ∃ p, weighted_mean_stdW x (w.map some) = .ok p := by
  have hA := fun x2 : List F => npAverageF_map_some x2 _ h
  simp only [weighted_mean_stdW, hA, exceptBind_ok]
  exact ⟨_, rfl⟩

theorem mapE_ok_map {α β : Type} (f : α → Except PyErr β) (g : α → β) :
    ∀ l : List α, (∀ a ∈ l, f a = .ok (g a)) → mapE f l = .ok (l.map g) := by
  intro l
  induction l with
  | nil => intro _; rfl
  | cons a t ih =>
      intro h
      have ha := h a (by simp)
      have ht := ih fun x hx => h x (by simp [hx])
      show (do
          let b ← f a
          let bs ← mapE f t
          Except.ok (b :: bs)) = Except.ok ((a :: t).map g)
      rw [ha, ht]
      exact rfl

theorem mapE_ok_forall {α β : Type} (f : α → Except PyErr β) :
    ∀ l : List α, (∀ a ∈ l, ∃ b, f a = .ok b) →
      ∃ bs, mapE f l = .ok bs ∧ bs.length = l.length ∧
        ∀ (i : ℕ) (h1 : i < l.length) (h2 : i < bs.length),
          f (l.get ⟨i, h1⟩) = .ok (bs.get ⟨i, h2⟩) := by
  intro l
  induction l with
  | nil =>
      intro _
      exact ⟨[], rfl, rfl, fun i h1 _ => absurd h1 (by simp)⟩
  | cons a t ih =>
      intro h
      obtain ⟨b, hb⟩ := h a (by simp)
      obtain ⟨bs, hbs, hlen, hpt⟩ := ih fun x hx => h x (by simp [hx])
      refine ⟨b :: bs, ?_, by simp [hlen], ?_⟩
      · show (do
            let y ← f a
            let ys ← mapE f t
            Except.ok (y :: ys)) = Except.ok (b :: bs)
        rw [hb, hbs]
        exact rfl
      · intro i h1 h2
        cases i with
        | zero => simpa using hb
        | succ j => simpa using hpt j (by simpa using h1) (by simpa using h2)

theorem foldE_const {α β : Type} (r : Except PyErr β) (bs : β)
    (hr : r = .ok bs) :
    ∀ (l : List α) (b : β), l ≠ [] → foldE (fun _ _ => r) b l = .ok bs := by
  subst hr
  intro l
  induction l with
  | nil => intro b h; exact absurd rfl h
  | cons a t ih =>
      intro b _
      show (do
          let b2 ← Except.ok bs
          foldE (fun _ _ => Except.ok bs) b2 t) = Except.ok bs
      rw [exceptBind_ok]
      cases t with
      | nil => exact rfl
      | cons c t2 => exact ih bs (by simp)

theorem centIndex_length (cen : List (ℚ × ℚ)) (Ne : ℕ) :
    (centIndex cen Ne).length = cen.length := by
  simp [centIndex]

/- obs_and_err and binFluct behaviour. -/

theorem obs_and_err_guard (q : List (ℚ × ℚ)) (m : List ℚ)
    (h : (m.map fun v => v * (v - 1)).sum = 0) :
    obs_and_err q m = .ok (some 0, some 0) := by
  unfold obs_and_err
  rw [if_pos h]

theorem obs_and_err_ok (q : List (ℚ × ℚ)) (m : List ℚ) :
    ∃ p, obs_and_err q m = .ok p := by
  by_cases h : (m.map fun v => v * (v - 1)).sum = 0
  · exact ⟨_, obs_and_err_guard q m h⟩
  · have hA := fun x2 : List F => npAverageF_map_some x2 _ h
    simp only [obs_and_err, if_neg h, weighted_mean_stdW, hA, exceptBind_ok]
    exact ⟨_, rfl⟩

theorem binFluct_ok (n sp sp2 : List ℚ)
    (hw : (n.map fun v => 1/2 * v * (v - 1)).sum ≠ 0) :
    ∃ p, binFluct n sp sp2 = .ok p := by
  have hA := fun x2 : List F => npAverageF_map_some x2 _ hw
  simp only [binFluct, weighted_mean_stdW, hA, exceptBind_ok]
  exact ⟨_, rfl⟩

theorem binFluct_nan (n sp sp2 : List ℚ)
    (hN : n.sum ≠ 0) (hp0 : sp.sum = 0)
    (hw : (n.map fun v => 1/2 * v * (v - 1)).sum ≠ 0) :
    binFluct n sp sp2 = .ok (none, none) := by
  have hA := fun x2 : List F => npAverageF_map_some x2 _ hw
  simp only [binFluct, hp0, fdiv_zero_some n.sum hN, weighted_mean_stdW, hA,
    exceptBind_ok]
  simp only [fdiv_some_zero]

theorem getD_map_getD {α β : Type} (f : α → β) (l : List α) (i : ℕ)
    (d : β) (d2 : α) (h : i < l.length) :
    (l.map f).getD i d = f (l.getD i d2) := by
  rw [getD_map f l i d h, getD_eq_get l i d2 h]

/- Behaviour of the per-bin loop bodies. -/

theorem binVn_ok (ds : List Event) (idf : ℕ) (nlh : ℤ × ℤ)
    (hne : ds ≠ []) : ∃ row, binVn ds idf nlh = .ok row := by
  unfold binVn
  simp only [npField_ok ds hne, exceptBind_ok]
  obtain ⟨bs, hbs, _, _⟩ := mapE_ok_forall _ (List.range Nharmonic)
    (fun nh2 _ => obs_and_err_ok _ _)
  exact ⟨bs, hbs⟩

theorem binVn_guard (ds : List Event) (idf : ℕ) (nlh : ℤ × ℤ)
    (hne : ds ≠ [])
    (hw : ((pySlice (ds.map fun e => (e idf).flow.n) nlh.1 nlh.2).map
        fun v => v * (v - 1)).sum = 0) :
    binVn ds idf nlh
      = .ok ((List.range Nharmonic).map
          fun _ => ((some 0 : F), (some 0 : F))) := by
  unfold binVn
  simp only [npField_ok ds hne, exceptBind_ok]
  exact mapE_ok_map _ _ _ (fun nh2 _ => obs_and_err_guard _ _ hw)

theorem binFluctAt_ok (ds : List Event) (idf : ℕ) (nlh : ℤ × ℤ)
    (hne : ds ≠ [])
    (hw : ((pySlice (ds.map fun e => (e idf).pT_fluct_chg.n)
        nlh.1 nlh.2).map fun v => 1/2 * v * (v - 1)).sum ≠ 0) :
    ∃ p, binFluctAt ds idf nlh = .ok p := by
  unfold binFluctAt
  simp only [npField_ok ds hne, exceptBind_ok]
  exact binFluct_ok _ _ _ hw

theorem binFluctAt_nan (ds : List Event) (idf : ℕ) (nlh : ℤ × ℤ)
    (hne : ds ≠ [])
    (hN : (pySlice (ds.map fun e => (e idf).pT_fluct_chg.n)
        nlh.1 nlh.2).sum ≠ 0)
    (hp0 : (pySlice (ds.map fun e => (e idf).pT_fluct_chg.sum_pT)
        nlh.1 nlh.2).sum = 0)
    (hw : ((pySlice (ds.map fun e => (e idf).pT_fluct_chg.n)
        nlh.1 nlh.2).map fun v => 1/2 * v * (v - 1)).sum ≠ 0) :
    binFluctAt ds idf nlh = .ok (none, none) := by
  unfold binFluctAt
  simp only [npField_ok ds hne, exceptBind_ok]
  exact binFluct_nan _ _ _ hN hp0 hw

theorem npAverageF_map_some_zero (x : List F) (w : List ℚ)
    (h : w.sum = 0) :
    npAverageF x (w.map some) = .error .zeroDivisionError := by
  unfold npAverageF
  rw [fsum_map_some]
  simp [h]

theorem binFluct_zeroDiv (n sp sp2 : List ℚ)
    (hw : (n.map fun v => 1/2 * v * (v - 1)).sum = 0) :
    binFluct n sp sp2 = .error .zeroDivisionError := by
  have hA := fun x2 : List F => npAverageF_map_some_zero x2 _ hw
  simp only [binFluct, weighted_mean_stdW, hA, exceptBind_error]

theorem binFluctAt_zeroDiv (ds : List Event) (idf : ℕ) (nlh : ℤ × ℤ)
    (hne : ds ≠ [])
    (hw : ((pySlice (ds.map fun e => (e idf).pT_fluct_chg.n)
        nlh.1 nlh.2).map fun v => 1/2 * v * (v - 1)).sum = 0) :
    binFluctAt ds idf nlh = .error .zeroDivisionError := by
  unfold binFluctAt
  simp only [npField_ok ds hne, exceptBind_ok]
  exact binFluct_zeroDiv _ _ _ hw

theorem mapE_error_of_mem {α β : Type} (f : α → Except PyErr β)
    (e : PyErr) : ∀ l : List α,
    (∀ x ∈ l, (∃ y, f x = .ok y) ∨ f x = .error e) →
    (∃ x ∈ l, f x = .error e) → mapE f l = .error e := by
  intro l
  induction l with
  | nil =>
      intro _ hex
      obtain ⟨x, hx, _⟩ := hex
      exact absurd hx (List.not_mem_nil x)
  | cons a t ih =>
      intro hall hex
      show (do
          let b ← f a
          let bs ← mapE f t
          Except.ok (b :: bs)) = Except.error e
      rcases hall a (List.mem_cons_self a t) with ⟨y, hy⟩ | ha
      · rw [hy, exceptBind_ok]
        have ht : mapE f t = .error e := by
          apply ih
          · intro x hx
            exact hall x (List.mem_cons_of_mem a hx)
          · obtain ⟨x, hx, hfx⟩ := hex
            rcases List.mem_cons.mp hx with rfl | hx2
            · rw [hy] at hfx
              exact absurd hfx (by simp)
            · exact ⟨x, hx2, hfx⟩
        rw [ht, exceptBind_error]
      · rw [ha, exceptBind_error]

theorem foldE_one_error {α β : Type} (r : Except PyErr β) (e : PyErr)
    (hr : r = .error e) (b : β) (a : α) (t : List α) :
    foldE (fun _ _ => r) b (a :: t) = .error e := by
  show (r >>= fun b2 => foldE (fun _ _ => r) b2 t) = .error e
  rw [hr, exceptBind_error]

/-- C5: in every centrality bin of the integrated-flow aggregator whose
total pair-count weight, the sum of M(M-1) over the events of the bin, is
exactly zero (in particular when every M of the bin is 0), the reported
vn and its error are exactly (0, 0) for every harmonic. -/
theorem calculate_vn_zero_pair_weight (ds : List Event)
    (cen : List (ℚ × ℚ)) (idf : ℕ) (i : ℕ) (nl nh : ℤ)
    (hne : ds ≠ []) (hi : i < cen.length)
    (hidx : (centIndex cen ds.length).getD i (0, 0) = (nl, nh))
    (hw : ((pySlice (ds.map fun e => (e idf).flow.n) nl nh).map
        fun v => v * (v - 1)).sum = 0) :
    ∃ out, calculate_vn ds cen idf = .ok out ∧
      ∀ n, n < Nharmonic →
        (out.obs.getD i []).getD n none = some 0 ∧
        (out.err.getD i []).getD n none = some 0 := by
  have hil : i < (centIndex cen ds.length).length := by
    rw [centIndex_length]; exact hi
  obtain ⟨rows, hrows, hlen, hpt⟩ := mapE_ok_forall (binVn ds idf)
    (centIndex cen ds.length) (fun nlh _ => binVn_ok ds idf nlh hne)
  have h2 : i < rows.length := by rw [hlen]; exact hil
  refine ⟨⟨"vn", cenMid cen, rows.map (fun r => r.map Prod.fst),
    rows.map (fun r => r.map Prod.snd)⟩, ?_, ?_⟩
  · simp only [calculate_vn, hrows, exceptBind_ok]
  · have hget : (centIndex cen ds.length).get ⟨i, hil⟩ = (nl, nh) := by
      rw [← getD_eq_get _ i (0, 0) hil]; exact hidx
    have hrow := hpt i hil h2
    rw [hget, binVn_guard ds idf (nl, nh) hne hw] at hrow
    have hrg : rows.getD i ([] : List (F × F))
        = (List.range Nharmonic).map
            fun _ => ((some 0 : F), (some 0 : F)) := by
      rw [getD_eq_get rows i [] h2]
      exact (Except.ok.inj hrow).symm
    intro n hn
    have hn8 : n < (List.range Nharmonic).length := by simpa using hn
    constructor
    · show (((rows.map fun r => r.map Prod.fst)).getD i []).getD n none
        = some 0
      rw [getD_map_getD _ rows i [] [] h2, hrg, List.map_map,
        getD_map_getD _ (List.range Nharmonic) n none 0 hn8]
      rfl
    · show (((rows.map fun r => r.map Prod.snd)).getD i []).getD n none
        = some 0
      rw [getD_map_getD _ rows i [] [] h2, hrg, List.map_map,
        getD_map_getD _ (List.range Nharmonic) n none 0 hn8]
      rfl

/-- Witness for C5: two events with flow multiplicity 0 each, one 0-100
bin; the bin and every harmonic report exactly (0, 0). -/
theorem calculate_vn_zero_pair_weight_witness :
    ∃ out, calculate_vn [evA, evB] [(0, 100)] 0 = .ok out ∧
      ∀ n, n < Nharmonic →
        (out.obs.getD 0 []).getD n none = some 0 ∧
        (out.err.getD 0 []).getD n none = some 0 :=
  calculate_vn_zero_pair_weight [evA, evB] [(0, 100)] 0 0 0 2 (by simp)
    (by decide) (by with_unfolding_all decide) (by with_unfolding_all decide)

/-- C4 counterexample: take two events with N = 2 charged particles and
sum_pT = sum_pT2 = 0 each, and the single centrality bin (0, 100); the
sum of sum_pT over the bin is zero, but the pT-fluctuation aggregator
reports (NaN, NaN) for the bin, not (0, 0): the ensemble mean
M = 0/4 = 0 is divided into sqrt(meanC) and into the error with no guard
(lines 186 and 196-199 have no zero test). -/
theorem calculate_mean_pT_fluct_not_zero_zero :
    (calculate_mean_pT_fluct [evA, evB] [(0, 100)] 0).map
        (fun o => (o.obs, o.err)) = .ok ([none], [none])
    ∧ (some (0 : ℚ) : F) ≠ none := by
  exact ⟨by with_unfolding_all rfl, by decide⟩

/-- C4 amended: calculate_mean_pT_fluct has no (0, 0) guard for a bin
whose sum_pT sum is zero; what it does depends on the bin's pair count.
(a) If every bin of the schedule still contains pairs (pair-count sum
half N(N-1) nonzero) and the degenerate bin has a nonzero particle count
N but zero total sum_pT, the run completes and emits (NaN, NaN) for that
bin: M = 0 and the final divisions by M at lines 198-199 are divisions
by zero.  (b) If some bin contains no pairs at all — every event of the
bin has N at most 1, in particular the all-zero-activity bin with every
N = 0 — the pair-weight sum handed to np.average at line 197 is zero and
the aggregator raises ZeroDivisionError.  In neither case does the bin
report (0, 0). -/
theorem calculate_mean_pT_fluct_nan :
    (∀ (ds : List Event) (cen : List (ℚ × ℚ)) (idf i : ℕ) (nl nh : ℤ),
      ds ≠ [] → i < cen.length →
      (centIndex cen ds.length).getD i (0, 0) = (nl, nh) →
      (∀ nlh ∈ centIndex cen ds.length,
          ((pySlice (ds.map fun e => (e idf).pT_fluct_chg.n)
              nlh.1 nlh.2).map fun v => 1/2 * v * (v - 1)).sum ≠ 0) →
      (pySlice (ds.map fun e => (e idf).pT_fluct_chg.n) nl nh).sum ≠ 0 →
      (pySlice (ds.map fun e => (e idf).pT_fluct_chg.sum_pT)
          nl nh).sum = 0 →
      ∃ out, calculate_mean_pT_fluct ds cen idf = .ok out ∧
        out.obs.getD i none = none ∧ out.err.getD i none = none) ∧
    (∀ (ds : List Event) (cen : List (ℚ × ℚ)) (idf : ℕ),
      ds ≠ [] →
      (∃ nlh ∈ centIndex cen ds.length,
        ((pySlice (ds.map fun e => (e idf).pT_fluct_chg.n)
            nlh.1 nlh.2).map fun v => 1/2 * v * (v - 1)).sum = 0) →
      calculate_mean_pT_fluct ds cen idf
        = .error .zeroDivisionError) := by
  constructor
  · intro ds cen idf i nl nh hne hi hidx hall hN hp0
    have hil : i < (centIndex cen ds.length).length := by
      rw [centIndex_length]; exact hi
    obtain ⟨rows, hrows, hlen, hpt⟩ := mapE_ok_forall (binFluctAt ds idf)
      (centIndex cen ds.length)
      (fun nlh hm => binFluctAt_ok ds idf nlh hne (hall nlh hm))
    have h2 : i < rows.length := by rw [hlen]; exact hil
    refine ⟨⟨"dNch_deta", cenMid cen, rows.map Prod.fst,
      rows.map Prod.snd⟩, ?_, ?_⟩
    · simp only [calculate_mean_pT_fluct,
        foldE_const _ rows hrows speciesNames
          ((centIndex cen ds.length).map
            fun _ => ((some 0 : F), (some 0 : F))) (by decide),
        exceptBind_ok]
    · have hget : (centIndex cen ds.length).get ⟨i, hil⟩ = (nl, nh) := by
        rw [← getD_eq_get _ i (0, 0) hil]; exact hidx
      have hrow := hpt i hil h2
      rw [hget, binFluctAt_nan ds idf (nl, nh) hne hN hp0
        (hall (nl, nh) (by rw [← hget]; exact List.get_mem _ _ _))] at hrow
      have hrg : rows.getD i (((some 0 : F), (some 0 : F)))
          = (none, none) := by
        rw [getD_eq_get rows i _ h2]
        exact (Except.ok.inj hrow).symm
      constructor
      · show (rows.map Prod.fst).getD i none = none
        rw [getD_map_getD _ rows i none ((some 0 : F), (some 0 : F)) h2, hrg]
      · show (rows.map Prod.snd).getD i none = none
        rw [getD_map_getD _ rows i none ((some 0 : F), (some 0 : F)) h2, hrg]
  · intro ds cen idf hne hex
    have hrb : mapE (binFluctAt ds idf) (centIndex cen ds.length)
        = .error .zeroDivisionError := by
      apply mapE_error_of_mem
      · intro nlh hm
        by_cases hz : ((pySlice (ds.map fun e => (e idf).pT_fluct_chg.n)
            nlh.1 nlh.2).map fun v => 1/2 * v * (v - 1)).sum = 0
        · exact Or.inr (binFluctAt_zeroDiv ds idf nlh hne hz)
        · exact Or.inl (binFluctAt_ok ds idf nlh hne hz)
      · obtain ⟨nlh, hm, hz⟩ := hex
        exact ⟨nlh, hm, binFluctAt_zeroDiv ds idf nlh hne hz⟩
    simp only [calculate_mean_pT_fluct, speciesNames,
      foldE_one_error _ _ hrb, exceptBind_error]

/-- Witness for the amended C4 at two concrete two-event ensembles: the
pairs-present NaN bin of the counterexample, and a zero-activity
ensemble (every N = 0) on which the aggregator raises
ZeroDivisionError. -/
theorem calculate_mean_pT_fluct_nan_witness :
    (∃ out, calculate_mean_pT_fluct [evA, evB] [(0, 100)] 0 = .ok out ∧
      out.obs.getD 0 none = none ∧ out.err.getD 0 none = none) ∧
    calculate_mean_pT_fluct [evC, evC] [(0, 100)] 0
      = .error .zeroDivisionError :=
  ⟨calculate_mean_pT_fluct_nan.1 [evA, evB] [(0, 100)] 0 0 0 2 (by simp)
      (by decide) (by with_unfolding_all decide)
      (by with_unfolding_all decide) (by with_unfolding_all decide)
      (by with_unfolding_all decide),
   calculate_mean_pT_fluct_nan.2 [evC, evC] [(0, 100)] 0 (by simp)
      ⟨(0, 2), by with_unfolding_all decide,
        by with_unfolding_all decide⟩⟩

/- The centrality binner: lemmas and claim C2. -/

theorem npTrunc_of_nonneg (q : ℚ) (h : 0 ≤ q) : npTrunc q = Int.floor q := by
  unfold npTrunc
  rw [if_neg (not_lt.mpr h)]

theorem pySlice_empty {α : Type} (col : List α) (nl nh : ℤ) (h : nh ≤ nl) :
    pySlice col nl nh = [] := by
  unfold pySlice
  have h0 : nh.toNat - nl.toNat = 0 := by omega
  rw [h0, List.take_zero]

theorem pySlice_single {α : Type} (col : List α) (nl : ℤ) (d : α)
    (h0 : 0 ≤ nl) (h : nl.toNat < col.length) :
    pySlice col nl (nl + 1) = [col.getD nl.toNat d] := by
  unfold pySlice
  have h1 : (nl + 1).toNat - nl.toNat = 1 := by omega
  rw [h1, List.drop_eq_getElem_cons h, List.take_succ_cons, List.take_zero,
    getD_eq_get col nl.toNat d h]
  rfl

theorem weighted_mean_stdN_nil : weighted_mean_stdN [] = (none, none) := rfl

theorem weighted_mean_stdN_single_fst (v : ℚ) :
    (weighted_mean_stdN [v]).1 = some v := by
  show npMeanF [v] = some v
  unfold npMeanF
  norm_num

theorem binField_eq (ds : List Event) (col : List ℚ) (nlh : ℤ × ℤ)
    (hne : ds ≠ []) :
    binField ds col nlh
      = .ok (weighted_mean_stdN (pySlice col nlh.1 nlh.2)) := by
  unfold binField
  simp only [npField_ok ds hne, exceptBind_ok]

theorem binDNdeta_eq (ds : List Event) (col : List ℚ) (nlh : ℤ × ℤ)
    (hne : ds ≠ []) :
    binDNdeta ds col nlh
      = .ok (weighted_mean_stdN
          (pySlice col nlh.1 (max nlh.2 (nlh.1 + 1)))) := by
  unfold binDNdeta
  simp only [npField_ok ds hne, exceptBind_ok]

/-- C2: (a) the centrality binner maps an ensemble size Ne and percentile
pairs (low, high) with 0 <= low <= high <= 100 to the integer index pairs
(floor(low/100*Ne), floor(high/100*Ne)); (b) when a range collapses
(high index at most low index), the charged-multiplicity aggregator
widens it to exactly one element, high = low + 1, and reduces over
exactly the single event at the low index; (c) the transverse-energy
aggregator accepts the empty range and returns the defined NaN pair
(modelled none) for that bin rather than raising. -/
theorem centrality_binner_policy :
    (∀ (cen : List (ℚ × ℚ)) (Ne : ℕ),
        (∀ p ∈ cen, 0 ≤ p.1 ∧ p.1 ≤ p.2 ∧ p.2 ≤ 100) →
        centIndex cen Ne
          = cen.map fun p => (Int.floor (p.1 / 100 * (Ne : ℚ)),
              Int.floor (p.2 / 100 * (Ne : ℚ)))) ∧
    (∀ (ds : List Event) (cen : List (ℚ × ℚ)) (idf : ℕ) (i : ℕ)
        (nl nh : ℤ),
        (centIndex cen ds.length).getD i (0, 0) = (nl, nh) →
        i < cen.length → nh ≤ nl → 0 ≤ nl → nl.toNat < ds.length →
        max nh (nl + 1) = nl + 1 ∧
        ∃ out, calculate_dNdeta ds cen idf = .ok out ∧
          out.obs.getD i none
            = some ((ds.map fun e => (e idf).dNch_deta).getD nl.toNat 0)) ∧
    (∀ (ds : List Event) (cen : List (ℚ × ℚ)) (idf : ℕ) (i : ℕ)
        (nl nh : ℤ),
        ds ≠ [] →
        (centIndex cen ds.length).getD i (0, 0) = (nl, nh) →
        i < cen.length → nh ≤ nl →
        ∃ out, calculate_dETdeta ds cen idf = .ok out ∧
          out.obs.getD i none = none ∧ out.err.getD i none = none) := by
  refine ⟨?_, ?_, ?_⟩
  · intro cen Ne h
    unfold centIndex
    refine List.map_congr_left fun p hp => ?_
    obtain ⟨h1, h2, _⟩ := h p hp
    have ha : (0:ℚ) ≤ p.1 / 100 * (Ne:ℚ) :=
      mul_nonneg (div_nonneg h1 (by norm_num)) (Nat.cast_nonneg Ne)
    have hb : (0:ℚ) ≤ p.2 / 100 * (Ne:ℚ) :=
      mul_nonneg (div_nonneg (le_trans h1 h2) (by norm_num))
        (Nat.cast_nonneg Ne)
    rw [npTrunc_of_nonneg _ ha, npTrunc_of_nonneg _ hb]
  · intro ds cen idf i nl nh hidx hi hcol h0 hlt
    have hne : ds ≠ [] := by
      intro h
      rw [h] at hlt
      simp at hlt
    have hmax : max nh (nl + 1) = nl + 1 := by omega
    have hil : i < (centIndex cen ds.length).length := by
      rw [centIndex_length]; exact hi
    refine ⟨hmax, ?_⟩
    have hcall := mapE_ok_map (binDNdeta ds (ds.map fun e => (e idf).dNch_deta))
      (fun nlh => weighted_mean_stdN
        (pySlice (ds.map fun e => (e idf).dNch_deta) nlh.1
          (max nlh.2 (nlh.1 + 1))))
      (centIndex cen ds.length)
      (fun nlh _ => binDNdeta_eq ds _ nlh hne)
    refine ⟨⟨"dNch_deta", cenMid cen,
      ((centIndex cen ds.length).map fun nlh => weighted_mean_stdN
        (pySlice (ds.map fun e => (e idf).dNch_deta) nlh.1
          (max nlh.2 (nlh.1 + 1)))).map Prod.fst,
      ((centIndex cen ds.length).map fun nlh => weighted_mean_stdN
        (pySlice (ds.map fun e => (e idf).dNch_deta) nlh.1
          (max nlh.2 (nlh.1 + 1)))).map Prod.snd⟩,
      by simp only [calculate_dNdeta, hcall, exceptBind_ok], ?_⟩
    show (((centIndex cen ds.length).map fun nlh => weighted_mean_stdN
        (pySlice (ds.map fun e => (e idf).dNch_deta) nlh.1
          (max nlh.2 (nlh.1 + 1)))).map Prod.fst).getD i none = _
    rw [getD_map_getD _ _ i none (weighted_mean_stdN []) (by
      rw [List.length_map, centIndex_length]; exact hi)]
    rw [getD_map_getD _ _ i (weighted_mean_stdN []) ((0 : ℤ), (0 : ℤ)) hil]
    show (weighted_mean_stdN
        (pySlice (ds.map fun e => (e idf).dNch_deta)
          ((centIndex cen ds.length).getD i (0, 0)).1
          (max ((centIndex cen ds.length).getD i (0, 0)).2
            (((centIndex cen ds.length).getD i (0, 0)).1 + 1)))).1 = _
    rw [hidx]
    show (weighted_mean_stdN
        (pySlice (ds.map fun e => (e idf).dNch_deta) nl
          (max nh (nl + 1)))).1 = _
    rw [hmax,
      pySlice_single (ds.map fun e => (e idf).dNch_deta) nl 0 h0
        (by rw [List.length_map]; exact hlt),
      weighted_mean_stdN_single_fst,
      getD_map _ ds nl.toNat 0 hlt]
  · intro ds cen idf i nl nh hne hidx hi hcol
    have hil : i < (centIndex cen ds.length).length := by
      rw [centIndex_length]; exact hi
    have hcall := mapE_ok_map (binField ds (ds.map fun e => (e idf).dET_deta))
      (fun nlh => weighted_mean_stdN
        (pySlice (ds.map fun e => (e idf).dET_deta) nlh.1 nlh.2))
      (centIndex cen ds.length)
      (fun nlh _ => binField_eq ds _ nlh hne)
    refine ⟨⟨"dNch_deta", cenMid cen,
      ((centIndex cen ds.length).map fun nlh => weighted_mean_stdN
        (pySlice (ds.map fun e => (e idf).dET_deta) nlh.1
          nlh.2)).map Prod.fst,
      ((centIndex cen ds.length).map fun nlh => weighted_mean_stdN
        (pySlice (ds.map fun e => (e idf).dET_deta) nlh.1
          nlh.2)).map Prod.snd⟩,
      by simp only [calculate_dETdeta, hcall, exceptBind_ok], ?_, ?_⟩
    · show (((centIndex cen ds.length).map fun nlh => weighted_mean_stdN
          (pySlice (ds.map fun e => (e idf).dET_deta) nlh.1
            nlh.2)).map Prod.fst).getD i none = _
      rw [getD_map_getD _ _ i none (weighted_mean_stdN []) (by
        rw [List.length_map, centIndex_length]; exact hi)]
      rw [getD_map_getD _ _ i (weighted_mean_stdN []) ((0 : ℤ), (0 : ℤ)) hil]
      show (weighted_mean_stdN
          (pySlice (ds.map fun e => (e idf).dET_deta)
            ((centIndex cen ds.length).getD i (0, 0)).1
            ((centIndex cen ds.length).getD i (0, 0)).2)).1 = _
      rw [hidx]
      show (weighted_mean_stdN
          (pySlice (ds.map fun e => (e idf).dET_deta) nl nh)).1 = _
      rw [pySlice_empty _ nl nh hcol, weighted_mean_stdN_nil]
    · show (((centIndex cen ds.length).map fun nlh => weighted_mean_stdN
          (pySlice (ds.map fun e => (e idf).dET_deta) nlh.1
            nlh.2)).map Prod.snd).getD i none = _
      rw [getD_map_getD _ _ i none (weighted_mean_stdN []) (by
        rw [List.length_map, centIndex_length]; exact hi)]
      rw [getD_map_getD _ _ i (weighted_mean_stdN []) ((0 : ℤ), (0 : ℤ)) hil]
      show (weighted_mean_stdN
          (pySlice (ds.map fun e => (e idf).dET_deta)
            ((centIndex cen ds.length).getD i (0, 0)).1
            ((centIndex cen ds.length).getD i (0, 0)).2)).2 = _
      rw [hidx]
      show (weighted_mean_stdN
          (pySlice (ds.map fun e => (e idf).dET_deta) nl nh)).2 = _
      rw [pySlice_empty _ nl nh hcol, weighted_mean_stdN_nil]

/-- Witness for C2: (a) the schedule (0,10),(10,40),(40,100) at Ne = 1000
gives exactly the ranges (0,100),(100,400),(400,1000); (b) at Ne = 5 the
bin (0,1) collapses to (0,0), is widened to one element, and the
multiplicity bin reports the single boundary event; (c) at the collapsed
bin (0,0) the transverse-energy aggregator reports the NaN pair. -/
theorem centrality_binner_policy_witness :
    centIndex [((0:ℚ), (10:ℚ)), (10, 40), (40, 100)] 1000
      = [((0:ℤ), (100:ℤ)), (100, 400), (400, 1000)] ∧
    (max (0 : ℤ) (0 + 1) = 0 + 1 ∧
      ∃ out, calculate_dNdeta (List.replicate 5 evA) [(0, 1)] 0 = .ok out ∧
        out.obs.getD 0 none
          = some (((List.replicate 5 evA).map
              fun e => (e 0).dNch_deta).getD 0 0)) ∧
    ∃ out, calculate_dETdeta [evA, evB] [(0, 0)] 0 = .ok out ∧
      out.obs.getD 0 none = none ∧ out.err.getD 0 none = none := by
  refine ⟨?_, ?_, ?_⟩
  · rw [centrality_binner_policy.1 [((0:ℚ), (10:ℚ)), (10, 40), (40, 100)]
      1000 (by with_unfolding_all decide)]
    with_unfolding_all decide
  · exact centrality_binner_policy.2.1 (List.replicate 5 evA) [(0, 1)] 0 0 0 0
      (by with_unfolding_all decide) (by decide) (by decide) (by decide)
      (by decide)
  · exact centrality_binner_policy.2.2 [evA, evB] [(0, 0)] 0 0 0 0 (by simp)
      (by with_unfolding_all decide) (by decide) (by decide)

/- The driver sort and claim C3. -/

theorem length_insertDesc (key : Event → ℚ) (e : Event) :
    ∀ l : List Event, (insertDesc key e l).length = l.length + 1 := by
  intro l
  induction l with
  | nil => rfl
  | cons a t ih =>
      unfold insertDesc
      by_cases h : key a < key e
      · rw [if_pos h]
        rfl
      · rw [if_neg h]
        simpa using ih

theorem length_driverSort (events : List Event) (idf : ℕ) :
    (driverSort events idf).length = events.length := by
  unfold driverSort
  induction events with
  | nil => rfl
  | cons a t ih =>
      rw [List.foldr_cons, length_insertDesc, ih, List.length_cons]

theorem wmsN_fst_eq_arithMean (l : List ℚ) (h : l ≠ []) :
    (weighted_mean_stdN l).1 = some (arithMean l) := by
  show npMeanF l = some (arithMean l)
  unfold npMeanF arithMean
  rw [if_neg (by simpa using h)]

/-- C3: for every 100-event ensemble, after the driver re-sorts the
ensemble descending by the charged-multiplicity field of the selected
variant (line 301), the charged-multiplicity-density aggregate over the
2-bin schedule (0,50),(50,100) has exactly two bin means: the arithmetic
mean of the top-50 and of the bottom-50 multiplicity-sorted events. -/
theorem dNdeta_two_bins_top_bottom (events : List Event) (idf : ℕ)
    (hlen : events.length = 100) :
    ∃ out, calculate_dNdeta (driverSort events idf)
        [(0, 50), (50, 100)] idf = .ok out ∧
      out.obs = [some (arithMean (((driverSort events idf).take 50).map
            fun e => (e idf).dNch_deta)),
        some (arithMean (((driverSort events idf).drop 50).map
            fun e => (e idf).dNch_deta))] := by
  set ds := driverSort events idf with hds
  have hdl : ds.length = 100 := by rw [hds, length_driverSort, hlen]
  have hne : ds ≠ [] := by
    intro h
    rw [h] at hdl
    simp at hdl
  have hcl : (ds.map fun e => (e idf).dNch_deta).length = 100 := by
    rw [List.length_map, hdl]
  have hidx : centIndex [((0:ℚ), (50:ℚ)), (50, 100)] ds.length
      = [((0:ℤ), (50:ℤ)), (50, 100)] := by
    rw [hdl]
    with_unfolding_all decide
  have hcall := mapE_ok_map
    (binDNdeta ds (ds.map fun e => (e idf).dNch_deta))
    (fun nlh => weighted_mean_stdN
      (pySlice (ds.map fun e => (e idf).dNch_deta) nlh.1
        (max nlh.2 (nlh.1 + 1))))
    [((0:ℤ), (50:ℤ)), (50, 100)]
    (fun nlh _ => binDNdeta_eq ds _ nlh hne)
  have e1 : (weighted_mean_stdN (pySlice (ds.map fun e => (e idf).dNch_deta)
      0 (max 50 (0 + 1)))).1
      = some (arithMean ((ds.take 50).map fun e => (e idf).dNch_deta)) := by
    have hmax : (max (50:ℤ) (0 + 1)) = 50 := by decide
    have hsl : pySlice (ds.map fun e => (e idf).dNch_deta) 0 50
        = (ds.map fun e => (e idf).dNch_deta).take 50 := by
      show ((ds.map fun e => (e idf).dNch_deta).drop (Int.toNat 0)).take
          (Int.toNat 50 - Int.toNat 0) = _
      rw [show Int.toNat 0 = 0 from rfl, show Int.toNat 50 = 50 from rfl,
        List.drop_zero]
    rw [hmax, hsl, ← List.map_take]
    refine wmsN_fst_eq_arithMean _ (List.ne_nil_of_length_pos ?_)
    rw [List.length_map, List.length_take, hdl]
    norm_num
  have e2 : (weighted_mean_stdN (pySlice (ds.map fun e => (e idf).dNch_deta)
      50 (max 100 (50 + 1)))).1
      = some (arithMean ((ds.drop 50).map fun e => (e idf).dNch_deta)) := by
    have hmax : (max (100:ℤ) (50 + 1)) = 100 := by decide
    have hsl : pySlice (ds.map fun e => (e idf).dNch_deta) 50 100
        = (ds.map fun e => (e idf).dNch_deta).drop 50 := by
      show ((ds.map fun e => (e idf).dNch_deta).drop (Int.toNat 50)).take
          (Int.toNat 100 - Int.toNat 50) = _
      rw [show Int.toNat 50 = 50 from rfl, show Int.toNat 100 = 100 from rfl]
      apply List.take_of_length_le
      rw [List.length_drop, hcl]
    rw [hmax, hsl, ← List.map_drop]
    refine wmsN_fst_eq_arithMean _ (List.ne_nil_of_length_pos ?_)
    rw [List.length_map, List.length_drop, hdl]
    norm_num
  refine ⟨⟨"dNch_deta", cenMid [((0:ℚ), (50:ℚ)), (50, 100)],
    ([((0:ℤ), (50:ℤ)), (50, 100)].map fun nlh => weighted_mean_stdN
      (pySlice (ds.map fun e => (e idf).dNch_deta) nlh.1
        (max nlh.2 (nlh.1 + 1)))).map Prod.fst,
    ([((0:ℤ), (50:ℤ)), (50, 100)].map fun nlh => weighted_mean_stdN
      (pySlice (ds.map fun e => (e idf).dNch_deta) nlh.1
        (max nlh.2 (nlh.1 + 1)))).map Prod.snd⟩, ?_, ?_⟩
  · simp only [calculate_dNdeta, hidx, hcall, exceptBind_ok]
  · show (([((0:ℤ), (50:ℤ)), (50, 100)].map fun nlh => weighted_mean_stdN
      (pySlice (ds.map fun e => (e idf).dNch_deta) nlh.1
        (max nlh.2 (nlh.1 + 1)))).map Prod.fst) = _
    simp only [List.map_cons, List.map_nil]
    rw [e1, e2]

/-- Witness for C3 at the ensemble of 100 copies of one event. -/
theorem dNdeta_two_bins_top_bottom_witness :
    ∃ out, calculate_dNdeta (driverSort (List.replicate 100 evA) 0)
        [(0, 50), (50, 100)] 0 = .ok out ∧
      out.obs = [some (arithMean
            (((driverSort (List.replicate 100 evA) 0).take 50).map
              fun e => (e 0).dNch_deta)),
        some (arithMean
            (((driverSort (List.replicate 100 evA) 0).drop 50).map
              fun e => (e 0).dNch_deta))] :=
  dNdeta_two_bins_top_bottom (List.replicate 100 evA) 0 (by simp)

/- The driver and batch loop: claims C6 and C7. -/


theorem mapE_cons_error {α β : Type} (f : α → Except PyErr β) (a : α)
    (t : List α) (err : PyErr) (h : f a = .error err) :
    mapE f (a :: t) = .error err := by
  show (do
      let b ← f a
      let bs ← mapE f t
      Except.ok (b :: bs)) = _
  rw [h]
  exact rfl

theorem binDNdeta_nil (col : List ℚ) (nlh : ℤ × ℤ) :
    binDNdeta [] col nlh = .error .indexError := rfl

theorem calculate_dNdeta_nil (cen : List (ℚ × ℚ)) (idf : ℕ)
    (h : cen ≠ []) : calculate_dNdeta [] cen idf = .error .indexError := by
  obtain ⟨c, t, rfl⟩ := List.exists_cons_of_ne_nil h
  simp only [calculate_dNdeta, centIndex, List.map_cons]
  rw [mapE_cons_error _ _ _ _ (binDNdeta_nil _ _), exceptBind_error]

theorem aggregateIdf_nil (cfg : ObsCentConfig) (idf : ℕ) (entry : Entry)
    (h : cfg.dNch_deta ≠ []) :
    aggregateIdf cfg [] idf entry = .error .indexError := by
  simp only [aggregateIdf, calculate_dNdeta_nil cfg.dNch_deta idf h,
    exceptBind_error]

theorem calculate_mean_pT_ok (ds : List Event) (cen : List (ℚ × ℚ))
    (idf : ℕ) (hne : ds ≠ []) :
    calculate_mean_pT ds cen idf = .ok
      ⟨"dNch_deta", cenMid cen,
        fun s => (((speciesNames.map fun s2 => (s2,
            (centIndex cen ds.length).map fun nlh => weighted_mean_stdN
              (pySlice (ds.map fun e => (e idf).mean_pT s2) nlh.1
                nlh.2))).lookup s).getD []).map Prod.fst,
        fun s => (((speciesNames.map fun s2 => (s2,
            (centIndex cen ds.length).map fun nlh => weighted_mean_stdN
              (pySlice (ds.map fun e => (e idf).mean_pT s2) nlh.1
                nlh.2))).lookup s).getD []).map Prod.snd⟩ := by
  have hrows := mapE_ok_map
    (fun s => do
        let pairs ← mapE
          (binField ds (ds.map fun e : Event => (e idf).mean_pT s))
          (centIndex cen ds.length)
        Except.ok (s, pairs))
    (fun s => (s, (centIndex cen ds.length).map fun nlh =>
        weighted_mean_stdN
          (pySlice (ds.map fun e : Event => (e idf).mean_pT s) nlh.1
            nlh.2)))
    speciesNames
    (fun s _ => by
      show (do
          let pairs ← mapE
            (binField ds (ds.map fun e : Event => (e idf).mean_pT s))
            (centIndex cen ds.length)
          Except.ok (s, pairs)) = _
      rw [mapE_ok_map (binField ds (ds.map fun e : Event => (e idf).mean_pT s))
        (fun nlh => weighted_mean_stdN
          (pySlice (ds.map fun e : Event => (e idf).mean_pT s) nlh.1 nlh.2))
        (centIndex cen ds.length)
        (fun nlh _ => binField_eq ds _ nlh hne)]
      exact rfl)
  simp only [calculate_mean_pT, hrows, exceptBind_ok]

theorem meanpTSpecies_eq (cfg : ObsCentConfig) (res : List Event)
    (idf : ℕ) (entry : Entry) (s : String) (hne : res ≠ []) :
    ∃ info, calculate_mean_pT res (cfg.mean_pT s) idf = .ok info ∧
      meanpTSpecies cfg res idf entry s = .ok
        { entry with
          mean_pT := Function.update entry.mean_pT s
            ⟨Function.update (entry.mean_pT s).mean idf (info.obs s),
             (entry.mean_pT s).err⟩,
          dN_dy := Function.update entry.dN_dy s
            ⟨(entry.dN_dy s).mean,
             Function.update (entry.dN_dy s).err idf (info.err s)⟩ } := by
  refine ⟨_, calculate_mean_pT_ok res _ idf hne, ?_⟩
  unfold meanpTSpecies
  rw [calculate_mean_pT_ok res _ idf hne]
  exact rfl

set_option maxRecDepth 10000 in
/-- C6 (code bug at line 330): the mean-pT step of the driver never
writes any mean_pT error column — every mean_pT error slot leaves the
step exactly as it entered it — and instead writes the error returned by
the mean-pT reduction into the dN_dy error column of the same species.
Concretely, for two events whose pion mean-pT values are 1 and 2 and one
0-100 bin, the mean-pT reduction error is non-zero — the exact value
(1/2)/sqrt(1 + 1e-9) is irrational, hence none in the float model, about
0.4999999998 in floating point — while the record's mean_pT_pion error
slot holds its initial zero. -/
theorem meanpT_err_written_to_dNdy_slot :
    (∀ (cfg : ObsCentConfig) (res : List Event) (idf : ℕ) (entry : Entry),
      res ≠ [] →
      ∃ e2, meanpTStep cfg res idf entry = .ok e2 ∧
        (∀ s2, (e2.mean_pT s2).err = (entry.mean_pT s2).err) ∧
        ∃ info, calculate_mean_pT res (cfg.mean_pT "pion") idf = .ok info ∧
          (e2.dN_dy "pion").err
            = Function.update (entry.dN_dy "pion").err idf
                (info.err "pion")) ∧
    ((calculate_mean_pT (driverSort [evA, evB] 0) [((0:ℚ), (100:ℚ))] 0).map
        (fun o => o.err "pion") = .ok [none] ∧
      ((initEntry cfgOne).mean_pT "pion").err 0 = [some 0] ∧
      ([none] : List F) ≠ [some 0]) := by
  constructor
  · intro cfg res idf entry hne
    obtain ⟨i1, hi1, hs1⟩ := meanpTSpecies_eq cfg res idf entry "pion" hne
    set E1 : Entry := { entry with
      mean_pT := Function.update entry.mean_pT "pion"
        ⟨Function.update (entry.mean_pT "pion").mean idf (i1.obs "pion"),
         (entry.mean_pT "pion").err⟩,
      dN_dy := Function.update entry.dN_dy "pion"
        ⟨(entry.dN_dy "pion").mean,
         Function.update (entry.dN_dy "pion").err idf
           (i1.err "pion")⟩ } with hE1
    obtain ⟨i2, hi2, hs2⟩ := meanpTSpecies_eq cfg res idf E1 "kaon" hne
    set E2 : Entry := { E1 with
      mean_pT := Function.update E1.mean_pT "kaon"
        ⟨Function.update (E1.mean_pT "kaon").mean idf (i2.obs "kaon"),
         (E1.mean_pT "kaon").err⟩,
      dN_dy := Function.update E1.dN_dy "kaon"
        ⟨(E1.dN_dy "kaon").mean,
         Function.update (E1.dN_dy "kaon").err idf
           (i2.err "kaon")⟩ } with hE2
    obtain ⟨i3, hi3, hs3⟩ := meanpTSpecies_eq cfg res idf E2 "proton" hne
    set E3 : Entry := { E2 with
      mean_pT := Function.update E2.mean_pT "proton"
        ⟨Function.update (E2.mean_pT "proton").mean idf (i3.obs "proton"),
         (E2.mean_pT "proton").err⟩,
      dN_dy := Function.update E2.dN_dy "proton"
        ⟨(E2.dN_dy "proton").mean,
         Function.update (E2.dN_dy "proton").err idf
           (i3.err "proton")⟩ } with hE3
    have hstep : meanpTStep cfg res idf entry = .ok E3 := by
      show (do
          let b1 ← meanpTSpecies cfg res idf entry "pion"
          foldE (meanpTSpecies cfg res idf) b1 ["kaon", "proton"])
        = Except.ok E3
      rw [hs1, exceptBind_ok]
      show (do
          let b2 ← meanpTSpecies cfg res idf E1 "kaon"
          foldE (meanpTSpecies cfg res idf) b2 ["proton"])
        = Except.ok E3
      rw [hs2, exceptBind_ok]
      show (do
          let b3 ← meanpTSpecies cfg res idf E2 "proton"
          foldE (meanpTSpecies cfg res idf) b3 [])
        = Except.ok E3
      rw [hs3, exceptBind_ok]
      exact rfl
    refine ⟨E3, hstep, ?_, i1, hi1, ?_⟩
    · intro s2
      rw [hE3, hE2, hE1]
      simp only [Function.update_apply]
      by_cases h3 : s2 = "proton"
      · subst h3
        simp only [if_pos rfl, if_neg (show ("proton":String) ≠ "kaon"
          by decide), if_neg (show ("proton":String) ≠ "pion" by decide),
          if_true]
      · rw [if_neg h3]
        by_cases h2 : s2 = "kaon"
        · subst h2
          simp only [if_pos rfl,
            if_neg (show ("kaon":String) ≠ "pion" by decide), if_true]
        · rw [if_neg h2]
          by_cases h1 : s2 = "pion"
          · subst h1
            simp only [if_pos rfl, if_true]
          · rw [if_neg h1]
    · rw [hE3, hE2, hE1]
      simp only [Function.update_apply,
        if_neg (show ("pion":String) ≠ "proton" by decide),
        if_neg (show ("pion":String) ≠ "kaon" by decide), if_pos rfl,
        if_true]
  · refine ⟨?_, by with_unfolding_all rfl, by decide⟩
    rw [show driverSort [evA, evB] 0 = [evA, evB] from by
      with_unfolding_all rfl]
    rw [calculate_mean_pT_ok [evA, evB] [((0:ℚ), (100:ℚ))] 0 (by simp)]
    simp only [Except.map]
    refine congrArg Except.ok ?_
    with_unfolding_all decide

/-- Witness for C6 at the concrete two-event ensemble and the one-bin
schedule table. -/
theorem meanpT_err_written_to_dNdy_slot_witness :
    ∃ e2, meanpTStep cfgOne [evA, evB] 0 (initEntry cfgOne) = .ok e2 ∧
      (∀ s2, (e2.mean_pT s2).err = ((initEntry cfgOne).mean_pT s2).err) ∧
      ∃ info, calculate_mean_pT [evA, evB] (cfgOne.mean_pT "pion") 0
          = .ok info ∧
        (e2.dN_dy "pion").err
          = Function.update ((initEntry cfgOne).dN_dy "pion").err 0
              (info.err "pion") :=
  meanpT_err_written_to_dNdy_slot.1 cfgOne [evA, evB] 0 (initEntry cfgOne)
    (by simp)

/-- The driver on a design point with zero loaded events: the first
aggregator call raises IndexError (see npField). -/
theorem load_and_compute_nil (cfg : ObsCentConfig)
    (hcfg : cfg.dNch_deta ≠ []) :
    load_and_compute_single_design cfg [] = .error .indexError := by
  show (do
      let b2 ← aggregateIdf cfg (driverSort [] 0) 0 (initEntry cfg)
      foldE (fun entry idf => aggregateIdf cfg (driverSort [] idf) idf entry)
        b2 [3]) = Except.error PyErr.indexError
  rw [show driverSort [] 0 = ([] : List Event) from rfl,
    aggregateIdf_nil cfg 0 (initEntry cfg) hcfg, exceptBind_error]

/-- C7 counterexample: a design point with zero successfully-loaded
events does not produce an output record: the driver raises IndexError,
because np.array of the empty event list is a plain float64 array and the
field access ds[exp] inside the first aggregator fails on it. -/
theorem empty_design_driver_raises_cex :
    load_and_compute_single_design cfgOne [] = .error .indexError :=
  load_and_compute_nil cfgOne (by decide)

/-- C7 amended: for every schedule table whose charged-multiplicity
schedule is non-empty, the driver raises IndexError on a design point
with zero loaded events instead of producing an all-zero record; and
because the batch loop of the main block has no per-design-point
exception handling, the raise aborts the batch: a batch starting with an
empty design point returns the bare error, and none of the remaining
design points is processed. -/
theorem empty_design_driver_raises :
    (∀ cfg : ObsCentConfig, cfg.dNch_deta ≠ [] →
        load_and_compute_single_design cfg [] = .error .indexError) ∧
    (∀ designs : List (List Event),
        processDesigns cfgOne ([] :: designs) = .error .indexError) := by
  constructor
  · exact load_and_compute_nil
  · intro designs
    exact mapE_cons_error _ _ _ _ (load_and_compute_nil cfgOne (by decide))

/-- Witness for the amended C7 at the concrete one-bin schedule table and
a batch with one further design point. -/
theorem empty_design_driver_raises_witness :
    load_and_compute_single_design cfgOne [] = .error .indexError ∧
    processDesigns cfgOne [[], [evA]] = .error .indexError :=
  ⟨empty_design_driver_raises.1 cfgOne (by decide),
   empty_design_driver_raises.2 [[evA]]⟩

/- The list2array guard and the undecorated weighted_mean_std: claim C8. -/

/-- C8 counterexample: weighted_mean_std is not decorated with
list2array.  Called directly with the ragged (non-coercible) list
[[1], [2, 3]] and no weights, its first operation x.size raises
AttributeError, not the ValueError that carries the message cannot
interpret input as numpy array (the InvalidInputError of the spec). -/
theorem wms_direct_ragged_attribute_error :
    weighted_mean_std_py
        (.pylist [.ilist [1], .ilist [2, 3]]) none = .error .attributeError
    ∧ PyErr.attributeError ≠ PyErr.valueError
    ∧ npArray (.pylist [.ilist [1], .ilist [2, 3]]) = none := by
  exact ⟨rfl, by decide, rfl⟩

/-- C8 amended: the InvalidInputError coercion guard is implemented by
the list2array decorator, which the source applies to obs_and_err only:
every wrapped call whose arguments do not both coerce with np.array
surfaces the ValueError to the caller rather than swallowing it; but
weighted_mean_std itself is undecorated, and a direct call on any plain
Python list without weights raises AttributeError at x.size before any
coercion could be attempted. -/
theorem list2array_guard_surfaces :
    (∀ (α : Type) (f : PyVal → PyVal → Except PyErr α) (x w : PyVal),
        npArray x = none ∨ npArray w = none →
        list2array f x w = .error .valueError) ∧
    (∀ es : List PyItem,
        weighted_mean_std_py (.pylist es) none = .error .attributeError) := by
  constructor
  · intro α f x w h
    unfold list2array
    rcases h with h | h
    · rw [h]
    · cases hx : npArray x with
      | none => rfl
      | some xa => rw [h]
  · intro es
    rfl

/-- Witness for the amended C8: a ragged first argument to a wrapped
call, and a well-formed flat list passed directly. -/
theorem list2array_guard_surfaces_witness :
    list2array (fun _ _ => (Except.ok 0 : Except PyErr ℕ))
        (.pylist [.ilist [1], .ilist [2, 3]]) (.nd [1])
      = .error .valueError ∧
    weighted_mean_std_py (.pylist [.inum 1, .inum 2]) none
      = .error .attributeError :=
  ⟨list2array_guard_surfaces.1 ℕ _ _ _ (Or.inl rfl),
   list2array_guard_surfaces.2 [.inum 1, .inum 2]⟩

/- Differential flow for identified species: claim C10. -/

theorem getDFlowPid_keyerror (v : VRec) :
    getDFlowPid v leaked_s = .error .keyError := by
  unfold getDFlowPid
  rw [if_neg (by decide)]

/-- C10 amended: for every non-empty ensemble and every pid other than
chg, calculate_diff_vn raises KeyError at the data selection, before any
flow computation: the species key it uses is the stale module-level
global s (the string Au-Au-200, leaked at import time from the loop over
system_strs in configurations.py and star-imported), which is not a field
of d_flow_pid; per-species differential flow is therefore unreachable
through this entry point.  The raise is a KeyError, not the NameError the
claim states, because the star import does bind the name s. -/
theorem diff_vn_pid_raises_keyerror (ds : List Event)
    (cenbins pTbins : List (ℚ × ℚ)) (idf : ℕ) (pid : String)
    (hne : ds ≠ []) (hpid : pid ≠ "chg") :
    calculate_diff_vn ds cenbins pTbins idf pid = .error .keyError := by
  obtain ⟨e, t, rfl⟩ := List.exists_cons_of_ne_nil hne
  have hm : mapE (fun e2 : Event => getDFlowPid (e2 idf) leaked_s) (e :: t)
      = .error .keyError :=
    mapE_cons_error (fun e2 : Event => getDFlowPid (e2 idf) leaked_s) e t
      .keyError (getDFlowPid_keyerror (e idf))
  simp only [calculate_diff_vn, npField_ok (e :: t) (by simp), exceptBind_ok,
    if_neg hpid, hm, exceptBind_error]

/-- C10 counterexample: with one event, the call with pid = pion returns
KeyError — and KeyError is not NameError, refuting the claimed undefined
variable: the name s is in fact bound at import time (see leaked_s). -/
theorem diff_vn_pid_keyerror_cex :
    calculate_diff_vn [evA] [(0, 100)] [(0, 1)] 0 "pion"
      = .error .keyError ∧ PyErr.keyError ≠ PyErr.nameError := by
  exact ⟨by with_unfolding_all rfl, by decide⟩

/-- Witness for the amended C10. -/
theorem diff_vn_pid_raises_keyerror_witness :
    calculate_diff_vn [evA, evB] [(0, 100)] [(0, 1)] 0 "proton"
      = .error .keyError :=
  diff_vn_pid_raises_keyerror [evA, evB] [(0, 100)] [(0, 1)] 0 "proton"
    (by simp) (by decide)

end AvgObs
